import Mathlib

/-!
Verification of the Greek grapheme-to-phoneme / numeral-to-words repository.

This file is a shallow embedding of the core modules of the repository:

* `src/digits_to_words.py` — the numeral word tables (`_prefixes`, `_plural_forms`);
* `src/g2p_greek/digits_to_words.py` — the digit-length-directed converters
  (`_convert_1digit` … `_convert_more_than10_less_than13_digits`,
  `convert_numbers`, `convert_sentence`);
* `src/g2p_greek/utils.py` — `process_word` and its substitution table;
* `src/g2p_greek/rules.py` — the phoneme rule tables;
* `src/g2p_greek/phoneme_conversion.py` — `convert_word`, `_check_till_dipthongs`,
  `_sanity_check`;
* `src/g2p_greek/dictionary.py` — `Dictionary.get_word_phonemes`.

Python strings are modelled as Lean `String`/`List Char`; fallible Python code
(raised exceptions) is modelled with `Except PyErr`.  The Python standard string
operations used by the sources (`strip`, `lower`, `split`, `replace`, `re.sub`
with the concrete patterns appearing in the sources) are given their own
executable models, restricted to the ASCII + Greek repertoire the program
processes.
-/

set_option maxRecDepth 100000

namespace G2P

/-- Python exceptions raised by the embedded code. -/
inductive PyErr where
  | valueError (msg : String)
  | keyError (msg : String)
  | assertionError (msg : String)
  | indexError (msg : String)
  | typeError (msg : String)
  | unboundLocalError (msg : String)
  | recursionError (msg : String)
  deriving Repr, DecidableEq

/-- Returns true when the `Except` carries a value (the Python call returned
normally, raising nothing). -/
def pyOk {α : Type} : Except PyErr α → Bool
  | .ok _ => true
  | .error _ => false

instance {ε α : Type} [DecidableEq ε] [DecidableEq α] : DecidableEq (Except ε α) :=
  fun x y =>
    match x, y with
    | .ok a, .ok b =>
      if h : a = b then isTrue (by rw [h]) else isFalse (by simp [h])
    | .ok _, .error _ => isFalse (by simp)
    | .error _, .ok _ => isFalse (by simp)
    | .error a, .error b =>
      if h : a = b then isTrue (by rw [h]) else isFalse (by simp [h])

/-! ## Python string primitives -/

/-- Python `str.isdigit`, restricted to ASCII decimal digits — the alphabet of
the spec's Digit String. -/
def pyIsDigitChar (c : Char) : Bool :=
  decide (c ∈ ['0', '1', '2', '3', '4', '5', '6', '7', '8', '9'])

/-- Python `str.isdigit` on a whole string: non-empty and made of digits only. -/
def pyIsdigit (s : String) : Bool :=
  !s.data.isEmpty && s.data.all pyIsDigitChar

/-- Whitespace as stripped/split by Python's default `strip`/`split`
(ASCII whitespace suffices for the repertoire processed here). -/
def pyIsSpace (c : Char) : Bool :=
  c = ' ' || c = '\t' || c = '\n' || c = '\r'

/-- Python `str.strip` (no arguments) on a character list. -/
def pyStripList (l : List Char) : List Char :=
  ((l.dropWhile pyIsSpace).reverse.dropWhile pyIsSpace).reverse

/-- Python `str.strip` (no arguments). -/
def pyStrip (s : String) : String :=
  String.mk (pyStripList s.data)

/-- Python `str.lower` on one character, covering ASCII letters and the Greek
block (including the accented capitals) — the repertoire of this program. -/
def pyLowerChar (c : Char) : Char :=
  if 'A' ≤ c ∧ c ≤ 'Z' then Char.ofNat (c.toNat + 32)
  else if 0x391 ≤ c.toNat ∧ c.toNat ≤ 0x3A9 ∧ c.toNat ≠ 0x3A2 then Char.ofNat (c.toNat + 32)
  else if c = 'Ά' then 'ά'
  else if c = 'Έ' then 'έ'
  else if c = 'Ή' then 'ή'
  else if c = 'Ί' then 'ί'
  else if c = 'Ό' then 'ό'
  else if c = 'Ύ' then 'ύ'
  else if c = 'Ώ' then 'ώ'
  else if c = 'Ϊ' then 'ϊ'
  else if c = 'Ϋ' then 'ϋ'
  else c

/-- Python `str.lower`. -/
def pyLower (s : String) : String :=
  String.mk (s.data.map pyLowerChar)

/-- Python `str.split(sep)` with a one-character separator, on a character
list: splits at every occurrence, keeping empty parts (so `"".split(" ")`
is `[""]`). -/
def splitCharAux (sep : Char) : List Char → List (List Char)
  | [] => [[]]
  | c :: cs =>
    match splitCharAux sep cs with
    | [] => [[c]]
    | p :: ps => if c = sep then [] :: p :: ps else (c :: p) :: ps

/-- Python `str.split(sep)` with a one-character separator. -/
def pySplitChar (sep : Char) (s : String) : List String :=
  (splitCharAux sep s.data).map String.mk

/-- Python `str.split()` (no arguments) on a character list: split on
whitespace runs, dropping empty parts.  Structural recursion on fuel; every
step drops at least one character, so fuel `l.length` always suffices. -/
def pySplitWsAux : Nat → List Char → List (List Char)
  | _, [] => []
  | 0, _ :: _ => []
  | fuel + 1, c :: cs =>
    if pyIsSpace c then pySplitWsAux fuel cs
    else (c :: cs.takeWhile (fun d => !pyIsSpace d)) ::
      pySplitWsAux fuel (cs.dropWhile (fun d => !pyIsSpace d))

/-- Python `str.split()` (no arguments). -/
def pySplitWs (s : String) : List String :=
  (pySplitWsAux s.data.length s.data).map String.mk

/-- Python `sep.join(xs)`. -/
def pyJoin (sep : String) : List String → String
  | [] => ""
  | [x] => x
  | x :: xs => x ++ sep ++ pyJoin sep xs

/-- Python `str.replace(pat, repl)` (replace every non-overlapping occurrence,
left to right).  The fuel argument is an upper bound on the number of scan
steps; each step consumes at least one character of the subject for the
non-empty patterns used by the sources, so `s.length` fuel is always enough. -/
def replaceLitAux (pat repl : List Char) : Nat → List Char → List Char
  | 0, s => s
  | _ + 1, [] => []
  | fuel + 1, c :: cs =>
    if pat.isPrefixOf (c :: cs) then
      repl ++ replaceLitAux pat repl fuel ((c :: cs).drop pat.length)
    else
      c :: replaceLitAux pat repl fuel cs

/-- Python `str.replace(pat, repl)`. -/
def pyStrReplace (s pat repl : String) : String :=
  String.mk (replaceLitAux pat.data repl.data s.data.length s.data)

/-- Matches a regular-expression pattern drawn from the sources' substitution
keys against a prefix of the subject.  The only metacharacters occurring in
those patterns are `.` (any character) and a backslash escape (the code turns
the key `"$"` into the pattern `"\$"`); everything else is literal.  Returns
the rest of the subject after the match. -/
def patMatchAt : List Char → List Char → Option (List Char)
  | [], s => some s
  | '\\' :: p :: ps, c :: cs => if c = p then patMatchAt ps cs else none
  | '\\' :: _ :: _, [] => none
  | ['\\'], _ => none
  | '.' :: ps, _ :: cs => patMatchAt ps cs
  | '.' :: _, [] => none
  | p :: ps, c :: cs => if c = p then patMatchAt ps cs else none
  | _ :: _, [] => none

/-- Python `re.sub(pat, repl, s)` for the substitution-key patterns: global,
leftmost, non-overlapping.  Fuel as in `replaceLitAux`. -/
def reSubAux (pat repl : List Char) : Nat → List Char → List Char
  | 0, s => s
  | _ + 1, [] => []
  | fuel + 1, c :: cs =>
    match patMatchAt pat (c :: cs) with
    | some rest => repl ++ reSubAux pat repl fuel rest
    | none => c :: reSubAux pat repl fuel cs

/-- Python `re.sub(pat, repl, s)` for the substitution-key patterns. -/
def pyReSub (pat repl s : String) : String :=
  String.mk (reSubAux pat.data repl.data s.data.length s.data)

/-- Python `re.sub` with a pattern that is an alternation of single characters
(for example `r"•|∙|»"`, `r"\."`, `r"\?"`): replaces each occurrence of any of
the characters with the replacement text. -/
def pyReplaceCharset (cs : List Char) (repl : List Char) : List Char → List Char
  | [] => []
  | c :: rest =>
    if c ∈ cs then repl ++ pyReplaceCharset cs repl rest
    else c :: pyReplaceCharset cs repl rest

/-- Membership in Python's `\w` character class for the repertoire processed
here: underscore, ASCII alphanumerics, and the Greek blocks (monotonic and
polytonic). -/
def pyIsWordChar (c : Char) : Bool :=
  c = '_' || c.isAlphanum || (0x370 ≤ c.toNat && c.toNat ≤ 0x3FF) ||
    (0x1F00 ≤ c.toNat && c.toNat ≤ 0x1FFF)

/-- Python `re.sub(r"[^\w\d]", " ", s)`: each non-word character becomes one
space (the pattern matches single characters, so this is a character map). -/
def pyKeepWordChars (l : List Char) : List Char :=
  l.map (fun c => if pyIsWordChar c then c else ' ')

/-- Python `re.sub(r"\s+", " ", s)`: each maximal whitespace run becomes one
space.  Fuel as in `pySplitWsAux`. -/
def pyCollapseWsAux : Nat → List Char → List Char
  | _, [] => []
  | 0, l => l
  | fuel + 1, c :: cs =>
    if pyIsSpace c then ' ' :: pyCollapseWsAux fuel (cs.dropWhile pyIsSpace)
    else c :: pyCollapseWsAux fuel cs

/-- Python `re.sub(r"\s+", " ", s)` on a character list. -/
def pyCollapseWs (l : List Char) : List Char :=
  pyCollapseWsAux l.length l

/-! ## Numeral word tables

Embeds `_prefixes` and `_plural_forms` from `src/digits_to_words.py`
(lines 27–107).  The 4/5/6-digit tables are written out with the entries the
Python dict comprehensions produce (`_plural_forms[key] + " χιλιάδες"`,
`val + " χιλιάδες"` for the two-character keys, and
`val[:-2] + "ιες" + " χιλιάδες"` over all 3-digit items — note that the
slicing of `"εκατό"`/`"εκατον"` yields `"εκαιες"`/`"εκατιες"`). -/

/-- The `'1digit'` table of `_prefixes`. -/
def digit_words_1 : List (String × String) :=
  [("0", "μηδέν"), ("1", "ένα"), ("2", "δύο"), ("3", "τρία"), ("4", "τέσσερα"),
   ("5", "πέντε"), ("6", "έξι"), ("7", "εφτά"), ("8", "οχτώ"), ("9", "εννιά")]

/-- The `'2digit'` table of `_prefixes`. -/
def digit_words_2 : List (String × String) :=
  [("10", "δέκα"), ("11", "έντεκα"), ("12", "δώδεκα"), ("1", "δεκα"),
   ("20", "είκοσι"), ("2", "εικοσι"), ("30", "τριάντα"), ("3", "τριαντα"),
   ("40", "σαράντα"), ("4", "σαραντα"), ("50", "πενήντα"), ("5", "πενηντα"),
   ("60", "εξήντα"), ("6", "εξηντα"), ("70", "εβδομήντα"), ("7", "εβδομηντα"),
   ("80", "ογδόντα"), ("8", "ογδοντα"), ("90", "ενενήντα"), ("9", "ενενηντα")]

/-- The `'3digit'` table of `_prefixes`. -/
def digit_words_3 : List (String × String) :=
  [("100", "εκατό"), ("1", "εκατον"), ("200", "διακόσια"), ("2", "διακοσια"),
   ("300", "τριακόσια"), ("3", "τριακοσια"), ("400", "τετρακόσια"), ("4", "τετρακοσια"),
   ("500", "πεντακόσια"), ("5", "πεντακοσια"), ("600", "εξακόσια"), ("6", "εξακοσια"),
   ("700", "εφτακόσια"), ("7", "εφτακοσια"), ("800", "οχτακόσια"), ("8", "οχτακοσια"),
   ("900", "εννιακόσια"), ("9", "εννιακοσια")]

/-- The `_plural_forms` table. -/
def plural_forms : List (String × String) :=
  [("0", "μηδέν"), ("1", "ένα"), ("2", "δυο"), ("3", "τρεις"), ("4", "τέσσερις"),
   ("5", "πέντε"), ("6", "έξι"), ("7", "εφτά"), ("8", "οχτώ"), ("9", "εννιά")]

/-- The `'4digit'` table: `{'1': 'χίλια'}` updated with
`{key: (_plural_forms[key] + " χιλιάδες").strip() for key in '1digit' if key != "1"}`. -/
def digit_words_4 : List (String × String) :=
  [("1", "χίλια"), ("0", "μηδέν χιλιάδες"), ("2", "δυο χιλιάδες"),
   ("3", "τρεις χιλιάδες"), ("4", "τέσσερις χιλιάδες"), ("5", "πέντε χιλιάδες"),
   ("6", "έξι χιλιάδες"), ("7", "εφτά χιλιάδες"), ("8", "οχτώ χιλιάδες"),
   ("9", "εννιά χιλιάδες")]

/-- The `'5digit'` table: `{key + "000": val + " χιλιάδες"}` over the 2-digit
items whose key is longer than one character. -/
def digit_words_5 : List (String × String) :=
  [("10000", "δέκα χιλιάδες"), ("11000", "έντεκα χιλιάδες"), ("12000", "δώδεκα χιλιάδες"),
   ("20000", "είκοσι χιλιάδες"), ("30000", "τριάντα χιλιάδες"), ("40000", "σαράντα χιλιάδες"),
   ("50000", "πενήντα χιλιάδες"), ("60000", "εξήντα χιλιάδες"), ("70000", "εβδομήντα χιλιάδες"),
   ("80000", "ογδόντα χιλιάδες"), ("90000", "ενενήντα χιλιάδες")]

/-- The `'6digit'` table: `{key + "000": val[:-2] + "ιες" + " χιλιάδες"}` over
every 3-digit item (the single-digit keys produce the four-digit keys
`"1000"`, `"2000"`, …). -/
def digit_words_6 : List (String × String) :=
  [("100000", "εκαιες χιλιάδες"), ("1000", "εκατιες χιλιάδες"),
   ("200000", "διακόσιες χιλιάδες"), ("2000", "διακοσιες χιλιάδες"),
   ("300000", "τριακόσιες χιλιάδες"), ("3000", "τριακοσιες χιλιάδες"),
   ("400000", "τετρακόσιες χιλιάδες"), ("4000", "τετρακοσιες χιλιάδες"),
   ("500000", "πεντακόσιες χιλιάδες"), ("5000", "πεντακοσιες χιλιάδες"),
   ("600000", "εξακόσιες χιλιάδες"), ("6000", "εξακοσιες χιλιάδες"),
   ("700000", "εφτακόσιες χιλιάδες"), ("7000", "εφτακοσιες χιλιάδες"),
   ("800000", "οχτακόσιες χιλιάδες"), ("8000", "οχτακοσιες χιλιάδες"),
   ("900000", "εννιακόσιες χιλιάδες"), ("9000", "εννιακοσιες χιλιάδες")]

/-- Embeds `to_plural`:
`lambda word: re.sub("ερα", "ερις", re.sub("τρία", "τρείς", word))`
(the patterns are literal, so `re.sub` is replace-all). -/
def to_plural (word : String) : String :=
  pyStrReplace (pyStrReplace word "τρία" "τρείς") "ερα" "ερις"

/-! ## Digit-length-directed converters

Embeds `_convert_1digit` … `_convert_more_than10_less_than13_digits` and
`convert_numbers` from `src/g2p_greek/digits_to_words.py` (lines 61–307).
Numbers are `List Char` (Python strings of digits); `_check_input`'s failed
assertions become `PyErr.assertionError`. -/

/-- Embeds `_check_input(number, length)` (the equality case). -/
def check_input_eq (number : List Char) (len : Nat) : Except PyErr Unit :=
  if number.length = len then .ok ()
  else .error (.assertionError "The digit must contain a fixed number of digits.")

/-- Embeds `_check_input(number, length, operator="greater_equal")`. -/
def check_input_ge (number : List Char) (len : Nat) : Except PyErr Unit :=
  if len ≤ number.length then .ok ()
  else .error (.assertionError "The digit must contain more digits.")

/-- Embeds `_check_input(number, length, operator="less_equal")`. -/
def check_input_le (number : List Char) (len : Nat) : Except PyErr Unit :=
  if number.length ≤ len then .ok ()
  else .error (.assertionError "The digit must contain less digits.")

/-- Embeds the leading-zero loop of `_convert_2digit`, `_convert_3digit`,
`_convert_6digit` and `_convert_more_than7_less_than10_digits`
(`temp_num = number[index+1:]` while the digits are `"0"`, with
`number = temp_num` executed after the loop): drops every leading zero, and an
all-zero number becomes empty. -/
def py_strip_zeros : List Char → List Char
  | [] => []
  | c :: rest => if c = '0' then py_strip_zeros rest else c :: rest

/-- Embeds the leading-zero loop of `_convert_4digit` and `_convert_5digit`,
where `number = temp_num` sits inside the `else` branch and only runs when a
nonzero digit is found: an all-zero number is left unchanged (the loop never
breaks), otherwise the leading zeros are dropped. -/
def py_strip_zeros_noupdate (number : List Char) : List Char :=
  if number.all (fun c => c = '0') then number else py_strip_zeros number

/-- Embeds `_convert_1digit`. -/
def convert_1digit (number : List Char) : Except PyErr String := do
  let () ← check_input_eq number 1
  match List.lookup (String.mk number) digit_words_1 with
  | none => .error (.valueError "is not a valid number.")
  | some out => .ok out

/-- Embeds `_convert_2digit`.  `first_digit` is captured before the
leading-zero loop; `number[1]` in the final branch is the second character. -/
def convert_2digit (number : List Char) : Except PyErr String := do
  let () ← check_input_eq number 2
  match List.lookup (String.mk number) digit_words_2 with
  | some out => .ok out
  | none =>
    let first_digit := number.take 1
    let number := py_strip_zeros number
    if number.length = 1 then convert_1digit number
    else if number.length = 0 then .ok ""
    else
      match List.lookup (String.mk first_digit) digit_words_2 with
      | none => .error (.valueError "Invalid start")
      | some start => do
        let second ← convert_1digit (number.drop 1)
        .ok (pyStrip (start ++ second))

/-- Embeds `_convert_3digit`.  Here `first_digit` is read after the
leading-zero loop (source line 113). -/
def convert_3digit (number : List Char) : Except PyErr String := do
  let () ← check_input_eq number 3
  match List.lookup (String.mk number) digit_words_3 with
  | some out => .ok out
  | none =>
    let number := py_strip_zeros number
    if number.length = 2 then convert_2digit number
    else if number.length = 1 then convert_1digit number
    else if number.length = 0 then .ok ""
    else
      match List.lookup (String.mk (number.take 1)) digit_words_3 with
      | none => .error (.valueError "Invalid start")
      | some start => do
        let rest ← convert_2digit (number.drop 1)
        .ok (pyStrip (start ++ " " ++ rest))

/-- Embeds `_convert_4digit`.  `first_digit` is captured before the
leading-zero loop, and that loop leaves an all-zero number unchanged. -/
def convert_4digit (number : List Char) : Except PyErr String := do
  let () ← check_input_eq number 4
  match List.lookup (String.mk number) digit_words_4 with
  | some out => .ok out
  | none =>
    let first_digit := number.take 1
    let number := py_strip_zeros_noupdate number
    if number.length = 3 then convert_3digit number
    else if number.length = 2 then convert_2digit number
    else if number.length = 1 then convert_1digit number
    else if number.length = 0 then .ok ""
    else
      match List.lookup (String.mk first_digit) digit_words_4 with
      | none => .error (.valueError "Invalid start")
      | some start => do
        let rest ← convert_3digit (number.drop 1)
        .ok (pyStrip (start ++ " " ++ rest))

/-- Embeds `_convert_5digit` (all-zero numbers are likewise left unchanged by
its leading-zero loop). -/
def convert_5digit (number : List Char) : Except PyErr String := do
  let () ← check_input_eq number 5
  match List.lookup (String.mk number) digit_words_5 with
  | some out => .ok out
  | none =>
    let number := py_strip_zeros_noupdate number
    if number.length = 4 then convert_4digit number
    else if number.length = 3 then convert_3digit number
    else if number.length = 2 then convert_2digit number
    else if number.length = 1 then convert_1digit number
    else if number.length = 0 then .ok ""
    else do
      let two ← convert_2digit (number.take 2)
      let three ← convert_3digit (number.drop 2)
      .ok (pyStrip (to_plural two ++ " χιλιάδες " ++ three))

/-- Embeds `_convert_6digit`. -/
def convert_6digit (number : List Char) : Except PyErr String := do
  let () ← check_input_eq number 6
  match List.lookup (String.mk number) digit_words_6 with
  | some out => .ok out
  | none =>
    let number := py_strip_zeros number
    if number.length = 5 then convert_5digit number
    else if number.length = 4 then convert_4digit number
    else if number.length = 3 then convert_3digit number
    else if number.length = 2 then convert_2digit number
    else if number.length = 1 then convert_1digit number
    else if number.length = 0 then .ok ""
    else do
      let last_3_digits ← convert_3digit (number.drop 3)
      if number.take 3 = ['0', '0', '0'] then .ok last_3_digits
      else do
        let first_3_digits ← convert_3digit (number.take 3)
        .ok (pyStrip (to_plural first_3_digits ++ " χιλιάδες " ++ last_3_digits))

/-- Embeds `_convert_more_than7_less_than10_digits`.  The singular-million
branch returns without `.strip()` (source lines 228–230).  After the
leading-zero loop the Python code fills `out` in one of two disjoint `if`
chains (lengths 1–6, then lengths 7–9) and returns `out.strip()`; a length for
which neither chain fires would leave `out` unbound. -/
def convert_7to9digit (number : List Char) : Except PyErr String := do
  let () ← check_input_ge number 7
  let () ← check_input_le number 9
  if number.length = 7 ∧ number.take 1 = ['1'] then do
    let rest ← convert_6digit (number.drop 1)
    .ok ("ένα εκατομμύριο " ++ rest)
  else
    let number := py_strip_zeros number
    if number.length = 0 then .ok ""
    else do
      let out ←
        if number.length = 6 then convert_6digit number
        else if number.length = 5 then convert_5digit number
        else if number.length = 4 then convert_4digit number
        else if number.length = 3 then convert_3digit number
        else if number.length = 2 then convert_2digit number
        else if number.length = 1 then convert_1digit number
        else if number.length = 7 then do
          let a ← convert_1digit (number.take 1)
          let b ← convert_6digit (number.drop 1)
          .ok (a ++ " εκατομμύρια " ++ b)
        else if number.length = 8 then do
          let a ← convert_2digit (number.take 2)
          let b ← convert_6digit (number.drop 2)
          .ok (a ++ " εκατομμύρια " ++ b)
        else if number.length = 9 then do
          let a ← convert_3digit (number.take 3)
          let b ← convert_6digit (number.drop 3)
          .ok (a ++ " εκατομμύρια " ++ b)
        else .error (.unboundLocalError "out")
      .ok (pyStrip out)

/-- Embeds `_convert_more_than10_less_than13_digits`.  The singular-billion
branch returns without `.strip()`; the remainder recurses into
`_convert_more_than7_less_than10_digits`. -/
def convert_10to12digit (number : List Char) : Except PyErr String := do
  let () ← check_input_ge number 10
  let () ← check_input_le number 12
  if number.length = 10 ∧ number.take 1 = ['1'] then do
    let rest ← convert_7to9digit (number.drop 1)
    .ok ("ένα δισεκατομμύριο " ++ rest)
  else do
    let out ←
      if number.length = 10 then do
        let a ← convert_1digit (number.take 1)
        let b ← convert_7to9digit (number.drop 1)
        .ok (a ++ " δισεκατομμύρια " ++ b)
      else if number.length = 11 then do
        let a ← convert_2digit (number.take 2)
        let b ← convert_7to9digit (number.drop 2)
        .ok (a ++ " δισεκατομμύρια " ++ b)
      else if number.length = 12 then do
        let a ← convert_3digit (number.take 3)
        let b ← convert_7to9digit (number.drop 3)
        .ok (a ++ " δισεκατομμύρια " ++ b)
      else .error (.unboundLocalError "out")
    .ok (pyStrip out)

/-! ## Text normalisation (`src/g2p_greek/utils.py`) -/

/-- Embeds `__basic_substitutes` from `src/g2p_greek/utils.py`, in the
source's insertion order. -/
def basic_substitutes : List (String × String) :=
  [("4k", "φορ κέι"), ("λοιπον", "λοιπόν"),
   ("$", "δολλάρια"), ("€", "ευρώ"),
   ("&", "και"), ("@", "παπάκι"), ("#", "δίεση"), ("%", "τοις εκατό"), (",", "κόμμα"),
   ("απο", "από"), ("μια", "μία"), ("ποιος", "ποιός"), ("ποια", "ποιά"),
   ("ποιο", "ποιό"), ("πιο", "πιό"),
   ("γεια", "γειά"), ("για", "γιά"),
   ("δυο", "δύο"), ("τρια", "τρία"),
   ("οκ", "οκέι"), ("okay", "οκέι"), ("ok", "οκέι"),
   ("ΚΤΕΟ", "κτέο"), ("ΕΟΠΥΥ", "εοπύ"), ("ΦΠΑ", "φιπιά"), ("Φ.Π.Α.", "φιπιά"),
   ("VIP", "βι άι πι"), ("ΑΦΜ", "αφιμί"), ("Α.Φ.Μ.", "αφιμί"), ("Α.Φ.Μ", "αφιμί"),
   ("SMS", "εσεμές"),
   ("ΑΜΚΑ", "άμκα"), ("Α.Μ.Κ.Α.", "άμκα"), ("Α.Μ.Κ.Α", "άμκα"),
   ("service", "σέρβις"), ("courier", "κούριερ"), ("club", "κλάμπ"),
   ("portal", "πόρταλ"), ("app", "άπ"),
   ("mobile", "μομπάιλ"), ("username", "γιούζερνειμ"), ("password", "πασγουόρντ"),
   ("large", "λάρτζ"), ("medium", "μίντιουμ"), ("small", "σμόλ"),
   ("bye", "μπάι"), ("thank", "θενκ"), ("thanks", "θενκς"), ("you", "γιου"),
   ("yes", "γιές"), ("my", "μάι"),
   ("toyota", "τογιότα"), ("hyundai", "χιουντάι"), ("viber", "βάιμπερ"),
   ("Yamaha", "γιαμάχα"), ("Gant", "γκάντ"), ("Public", "πάμπλικ"),
   ("online", "ονλάιν"), ("web", "γουέμπ"), ("site", "σάιτ"), ("website", "γουέμπσαιτ"),
   ("gr", "τζι αρ"), ("www", "ντάμπλ γιού ντάμπλ γιου ντάμπλ γιού"), ("com", "κόμ"),
   ("email", "ιμέιλ"), ("e-mail", "ιμέιλ")]

/-- Embeds the `punctuation` list of `src/g2p_greek/utils.py` (each entry is a
one-character string). -/
def punctuation_chars : List Char := [';', '!', ':', '∙', '»', ',']

/-- One iteration of the substitution loop of `process_word`: lower the key,
check membership of the key in the whitespace-split and in the dot-split of
the lowered word, and if it occurs substitute it (` val `) in the lowered,
stripped word with `re.sub` — the key `"$"` is first escaped to `"\$"`. -/
def substitute_fold (word : String) (kv : String × String) : String :=
  let key := pyLower kv.1
  if key ∈ pySplitWs (pyLower word) ∨ key ∈ pySplitChar '.' (pyLower word) then
    let pat := if key = "$" then "\\$" else key
    pyReSub pat (" " ++ kv.2 ++ " ") (pyLower (pyStrip word))
  else word

/-- Embeds `process_word(word, keep_only_chars_and_digits, to_lower)` from
`src/g2p_greek/utils.py` (lines 170–190). -/
def process_word_full (word : String) (keep_only_chars_and_digits to_lower : Bool) :
    String :=
  let word := pyStrip word
  let word := if to_lower then pyLower word else word
  let word := basic_substitutes.foldl substitute_fold word
  let word := String.mk (pyReplaceCharset ['.'] (" . ".data) word.data)
  let word := String.mk (pyReplaceCharset ['?'] (" ? ".data) word.data)
  let word := String.mk (pyReplaceCharset ['•', '∙', '»'] (" ".data) word.data)
  let word :=
    if keep_only_chars_and_digits then String.mk (pyKeepWordChars word.data)
    else
      let word := String.mk (pyReplaceCharset ['\n'] (" \n ".data) word.data)
      let word := String.mk (pyReplaceCharset ['\t'] (" \t ".data) word.data)
      punctuation_chars.foldl
        (fun w ch => String.mk (pyReplaceCharset [ch] [' ', ch, ' '] w.data)) word
  pyStrip (String.mk (pyCollapseWs word.data))

/-- `process_word` with its default arguments, as called by
`convert_numbers`. -/
def process_word (word : String) : String :=
  process_word_full word true true

/-! ## `convert_numbers` and `convert_sentence`
(`src/g2p_greek/digits_to_words.py`, lines 284–327) -/

/-- Embeds `convert_numbers`: normalise the word with `process_word`; a word
that is not purely made of digits is returned verbatim; otherwise dispatch on
the digit count, and raise for more than 12 digits. -/
def convert_numbers (initial_word : String) : Except PyErr String :=
  let word := process_word initial_word
  if pyIsdigit word = false then .ok initial_word
  else
    let n := word.data
    if n.length = 1 then convert_1digit n
    else if n.length = 2 then convert_2digit n
    else if n.length = 3 then convert_3digit n
    else if n.length = 4 then convert_4digit n
    else if n.length = 5 then convert_5digit n
    else if n.length = 6 then convert_6digit n
    else if 7 ≤ n.length ∧ n.length ≤ 9 then convert_7to9digit n
    else if 10 ≤ n.length ∧ n.length ≤ 12 then convert_10to12digit n
    else .error (.valueError "We only accept integers of maximum 13 digits")

/-- Embeds `convert_sentence` (`src/g2p_greek/digits_to_words.py`,
lines 310–327).  Its second statement is
`process_word(sentence, remove_unknown_chars=False, to_lower=False)`, but the
imported `g2p_greek.utils.process_word` (embedded above as
`process_word_full`) has parameters `(word, keep_only_chars_and_digits,
to_lower)` — there is no parameter named `remove_unknown_chars` (that was the
name in the older top-level `utils.py` only).  The call therefore raises
`TypeError` for every input, before any token is processed; the
`handle_commas` result computed by the first statement is discarded
unfinished. -/
def convert_sentence (_sentence : String) : Except PyErr String :=
  .error (.typeError
    "process_word() got an unexpected keyword argument remove_unknown_chars")

/-! ## Phoneme rule tables (`src/g2p_greek/rules.py`) -/

/-- Embeds `vowel_phonemes`. -/
def vowel_phonemes : List String :=
  ["a0", "a1", "e0", "e1", "i0", "i1", "o0", "o1", "u0", "u1"]

/-- Embeds `character_rules` (single character → phoneme string). -/
def character_rules : List (Char × String) :=
  [('α', "a0"), ('ά', "a1"), ('β', "v"), ('γ', "gh"), ('δ', "dh"),
   ('ε', "e0"), ('έ', "e1"), ('ζ', "z"), ('η', "i0"), ('ή', "i1"),
   ('θ', "th"), ('ι', "i0"), ('ϊ', "i0"), ('ί', "i1"), ('ΐ', "i1"),
   ('κ', "k"), ('λ', "l"), ('μ', "m"), ('ν', "n"), ('ξ', "k s"),
   ('ο', "o0"), ('ό', "o1"), ('π', "p"), ('ρ', "r"), ('σ', "s"),
   ('ς', "s"), ('τ', "t"), ('υ', "i0"), ('ϋ', "i0"), ('ύ', "i1"),
   ('ΰ', "i1"), ('φ', "f"), ('χ', "h"), ('ψ', "p s"), ('ω', "o0"),
   ('ώ', "o1")]

/-- Embeds `diphthong_rules` (two-character cluster → phoneme string). -/
def diphthong_rules : List (String × String) :=
  [("ου", "u0"), ("ού", "u1"), ("οϋ", "o0 i0"), ("οΰ", "o0 i1"),
   ("αι", "e0"), ("αί", "e0"), ("αΐ", "a0 i1"), ("αϊ", "a0 i0"),
   ("ει", "i0"), ("εί", "i1"), ("εΐ", "e0 i1"), ("εϊ", "e0 i0"),
   ("οι", "i0"), ("οί", "i1"), ("οΐ", "o0 i1"), ("οϊ", "o0 i0"),
   ("τζ", "d z"), ("γγ", "ng g"), ("γκ", "ng g"), ("ντ", "d"),
   ("μπ", "b"), ("κι", "kj"), ("τσ", "ts"), ("ια", "j a0"),
   ("ιά", "j a1"), ("ιο", "i o0"), ("ιό", "i o1")]

/-- Embeds `single_letter_pronounciations` (letter → its spelled-out name). -/
def single_letter_pronounciations : List (String × String) :=
  [("α", "άλφα"), ("ά", "άλφα"), ("β", "βήτα"), ("γ", "γάμμα"), ("δ", "δέλτα"),
   ("ε", "έψιλον"), ("έ", "έψιλον"), ("ζ", "ζήτα"), ("η", "η"), ("ή", "ή"),
   ("θ", "θήτα"), ("ι", "γιότα"), ("ί", "γιότα"), ("ϊ", "γιότα"), ("ΐ", "γιότα"),
   ("κ", "κάπα"), ("λ", "λάμδα"), ("μ", "μι"), ("ν", "νι"), ("ξ", "ξι"),
   ("ο", "ο"), ("ό", "όμικρον"), ("π", "πι"), ("ρ", "ρο"), ("σ", "σίγμα"),
   ("τ", "τάφ"), ("υ", "ύψιλον"), ("ύ", "ύψιλον"), ("ϋ", "ύψιλον"),
   ("ΰ", "ύψιλον"), ("φ", "φι"), ("χ", "χι"), ("ψ", "ψι"), ("ω", "ωμέγα"),
   ("ώ", "ωμέγα")]

/-! ## Word-to-phoneme conversion (`src/g2p_greek/phoneme_conversion.py`) -/

/-- Embeds `_get_word_couples`: the adjacent character pairs of the word. -/
def get_word_couples : List Char → List (List Char)
  | c1 :: c2 :: rest => [c1, c2] :: get_word_couples (c2 :: rest)
  | _ => []

/-- Embeds the inner loop `for val in word_couples[counter]:
phons.append(character_rules[val])` — a missing table entry raises
`KeyError(val)`. -/
def char_phones : List Char → Except PyErr (List String)
  | [] => .ok []
  | c :: cs =>
    match List.lookup c character_rules with
    | some v => do
      let rest ← char_phones cs
      .ok (v :: rest)
    | none => .error (.keyError (String.mk [c]))

/-- Embeds the `while` loop of `_check_till_dipthongs`.  `gs` holds
`word_couples[counter:]`; the in-place updates of `word_couples[counter + 1]`
become the rebuilt head of the recursive call: a matched diphthong replaces
the next couple by its last character (`[-1]`), an unmatched one replaces the
next couple by its second character (`[1]`) unless the next couple is itself a
diphthong.  `del phons[-1]` on a non-empty list is `List.dropLast`. -/
def diphthong_scan : Nat → List (List Char) → List String →
    Except PyErr (List String)
  | _, [], phons => .ok phons
  | 0, _ :: _, _ => .error (.recursionError "out of fuel")
  | fuel + 1, g :: rest, phons =>
    match List.lookup (String.mk g) diphthong_rules with
    | some v =>
      let phons := phons.dropLast ++ [v]
      match rest with
      | [] => .ok phons
      | d :: rest2 =>
        match d.getLast? with
        | none => .error (.indexError "string index out of range")
        | some ch => diphthong_scan fuel ([ch] :: rest2) phons
    | none => do
      let vals ← char_phones g
      let phons := phons ++ vals
      match rest with
      | [] => .ok phons
      | d :: rest2 =>
        if (List.lookup (String.mk d) diphthong_rules).isSome then
          diphthong_scan fuel (d :: rest2) phons
        else
          match d with
          | _ :: ch :: _ => diphthong_scan fuel ([ch] :: rest2) phons
          | _ => .error (.indexError "string index out of range")

/-- Embeds `_check_till_dipthongs(word)`: build the couples, run the scan with
an empty phoneme list, and return the word together with the phonemes.  Every
scan step consumes one couple, so fuel equal to the number of couples always
suffices. -/
def check_till_dipthongs (word : String) : Except PyErr (String × List String) := do
  let couples := get_word_couples word.data
  let phons ← diphthong_scan couples.length couples []
  .ok (word, phons)

/-- Embeds `" ".join(current_phonemes).split(" ")` (line 61 of
`phoneme_conversion.py`): multi-phoneme rule values such as `"k s"` are split
into separate entries; an empty list becomes `[""]`. -/
def flatten_phonemes (phons : List String) : List String :=
  pySplitChar ' ' (pyJoin " " phons)

/-- Embeds `len([ph for ph in phonemes if ph in vowel_phonemes])`. -/
def vowel_count (phonemes : List String) : Nat :=
  (phonemes.filter (fun ph => decide (ph ∈ vowel_phonemes))).length

/-- The per-phoneme body of the intonation loop of `_sanity_check`: a vowel
phoneme gets `ph.replace("0", "1")`, anything else is appended unchanged. -/
def stress_mark (ph : String) : String :=
  if decide (ph ∈ vowel_phonemes) then pyStrReplace ph "0" "1" else ph

/-- Embeds part 1 of `_sanity_check`: when the word carries exactly one vowel
phoneme, every vowel entry gets its `"0"` replaced by `"1"`; otherwise the
list is returned as is. -/
def intonation_pass (phonemes : List String) : List String :=
  if vowel_count phonemes = 1 then phonemes.map stress_mark else phonemes

/-- Embeds part 2 of `_sanity_check` (the `while ph_id < len(phonemes) - 1`
loop): keep the current phoneme, and when it equals the one-character string
`phonemes[ph_id + 1][0]` skip the next one; indexing `[0]` on an empty string
raises `IndexError`. -/
def dedup_pass : List String → Except PyErr (List String)
  | [] => .ok []
  | [p] => .ok [p]
  | p :: q :: rest =>
    match q.data with
    | [] => .error (.indexError "string index out of range")
    | q0 :: _ =>
      if p = String.mk [q0] then do
        let tail ← dedup_pass rest
        .ok (p :: tail)
      else do
        let tail ← dedup_pass (q :: rest)
        .ok (p :: tail)

/-- Embeds `_sanity_check` (lines 68–93): intonation defaulting followed by
the consonant-doubling collapse. -/
def sanity_check (phonemes : List String) : Except PyErr (List String) :=
  dedup_pass (intonation_pass phonemes)

/-- Holds when some two adjacent entries of the list are identical strings
(the situation the spec's deduplication invariant forbids). -/
def has_adjacent_duplicate : List String → Bool
  | p :: q :: rest => p = q || has_adjacent_duplicate (q :: rest)
  | _ => false

/-- Every rule value a scan step can emit: the values of `character_rules`
and of `diphthong_rules`. -/
def all_rule_values : List String :=
  character_rules.map Prod.snd ++ diphthong_rules.map Prod.snd

/-- The individual phoneme tokens obtained by splitting the rule values on
spaces (the flattening step of `convert_word`). -/
def phoneme_parts : List String :=
  ["a0", "a1", "e0", "e1", "i0", "i1", "o0", "o1", "u0", "u1",
   "v", "gh", "dh", "z", "th", "k", "l", "m", "n", "p", "r", "s", "t", "f",
   "h", "d", "b", "g", "ng", "kj", "ts", "j", "i"]

/-- The stressed vowel codes (vowel phonemes ending in `"1"`). -/
def stressed_vowel_phonemes : List String :=
  ["a1", "e1", "i1", "o1", "u1"]

/-- The non-numeric tail of `convert_word` (lines 60–64): scan the word,
flatten the phoneme strings, and run `_sanity_check`. -/
def convert_word_scan (word : String) : Except PyErr (String × List String) := do
  let wc ← check_till_dipthongs word
  let current := flatten_phonemes wc.2
  let current ← sanity_check current
  .ok (wc.1, current)

/-- Embeds `convert_word` (lines 23–64) with explicit recursion fuel
(`1000`, Python's default recursion limit; the recursive call only fires for
the words of a multi-word numeral expansion, which are not numeric, so the
fuel is never exhausted).  A numeric word is first expanded with
`convert_numbers`; a multi-word expansion converts each word recursively and
re-splits the accumulated `" ".join(...) + " "` pieces. -/
def convert_word_fuel : Nat → String → Except PyErr (String × List String)
  | 0, _ => .error (.recursionError "maximum recursion depth exceeded")
  | fuel + 1, word0 =>
    let word := pyStrip word0
    if pyIsdigit word = true then do
      let transliterated ← convert_numbers word
      if (pySplitWs transliterated).length > 1 then do
        let pieces ← (pySplitWs transliterated).mapM (fun w => do
          let r ← convert_word_fuel fuel w
          .ok (pyJoin " " r.2 ++ " "))
        .ok (transliterated, pySplitWs (pyStrip (String.join pieces)))
      else
        convert_word_scan transliterated
    else
      convert_word_scan word

/-- Embeds `convert_word`. -/
def convert_word (word : String) : Except PyErr (String × List String) :=
  convert_word_fuel 1000 word

/-! ## Lexicon lookup (`src/g2p_greek/dictionary.py`) -/

/-- Modelled from the spec: `g2p_greek/english_rules.py` (the supplementary
foreign-letter-name table `english_mappings` imported by `dictionary.py`) is
not among the sources.  `phoneme_conversion.py` falls back to an empty table
when that module is missing, and the spec gives no entries for it, so it is
modelled as the empty table here. -/
def english_mappings : List (String × String) := []

/-- A built lexicon (`Dictionary.lexicon_dict`): buckets keyed by the first
`N = 3` characters of the word, each bucket mapping a word to its stored
phoneme string. -/
def Lexicon : Type := List (String × List (String × String))

/-- Embeds the inner `try`/`except KeyError` ladder of the single-character
branch of `get_word_phonemes`: a `KeyError` — from the table lookup or from
`convert_word` on the looked-up letter name — falls through to the next
handler, and the last handler warns and returns the word with an empty
phoneme list (`initial_word + " \n"`). -/
def single_letter_branch (table : List (String × String)) (word initial_word : String)
    (fallback : Except PyErr String) : Except PyErr String :=
  match List.lookup word table with
  | none => fallback
  | some name =>
    match convert_word name with
    | .ok r => .ok (initial_word ++ " " ++ pyJoin " " r.2 ++ "\n")
    | .error (.keyError _) => fallback
    | .error e => .error e

/-- Embeds `Dictionary.get_word_phonemes(word)` (lines 33–54) with
`initial_word = None`, so `initial_word = word`.  Single-character (after
`strip`) words go through the letter-name tables; other words are looked up
in the bucket keyed by `word[:3]`, and on any miss fall back to
`convert_word`. -/
def get_word_phonemes (lexicon : Lexicon) (word : String) : Except PyErr String :=
  let initial_word := word
  if (pyStrip word).data.length = 1 then
    single_letter_branch single_letter_pronounciations word initial_word
      (single_letter_branch english_mappings word initial_word
        (.ok (initial_word ++ " \n")))
  else
    let key := String.mk (word.data.take 3)
    let fallback : Except PyErr String := do
      let r ← convert_word word
      .ok (initial_word ++ " " ++ pyJoin " " r.2 ++ "\n")
    match List.lookup key lexicon with
    | some bucket =>
      match List.lookup word bucket with
      | some stored => .ok (initial_word ++ " " ++ pyJoin " " (pySplitWs stored) ++ "\n")
      | none => fallback
    | none => fallback

/-! ## Helper lemmas -/

/-- When the normalised word is not purely numeric, `convert_numbers` takes
its first branch and returns the input verbatim. -/
theorem convert_numbers_of_not_digit (w : String)
    (h : pyIsdigit (process_word w) = false) : convert_numbers w = .ok w := by
  simp [convert_numbers, h]

theorem except_bind_ok {α β : Type} (a : α) (f : α → Except PyErr β) :
    (do let x ← (.ok a : Except PyErr α); f x) = f a := rfl

theorem except_bind_err {α β : Type} (e : PyErr) (f : α → Except PyErr β) :
    (do let x ← (.error e : Except PyErr α); f x) = .error e := rfl

theorem pyOk_eq_true {α : Type} {e : Except PyErr α} :
    pyOk e = true ↔ ∃ a, e = .ok a := by
  cases e with
  | ok a => simp [pyOk]
  | error err => simp [pyOk]

/-- A digit character is one of the ten ASCII digits. -/
theorem pyIsDigitChar_cases {c : Char} (h : pyIsDigitChar c = true) :
    c = '0' ∨ c = '1' ∨ c = '2' ∨ c = '3' ∨ c = '4' ∨ c = '5' ∨ c = '6' ∨
      c = '7' ∨ c = '8' ∨ c = '9' := by
  simpa [pyIsDigitChar] using h

/-- `py_strip_zeros` returns a suffix of its input. -/
theorem py_strip_zeros_suffix (n : List Char) : py_strip_zeros n <:+ n := by
  induction n with
  | nil => simp [py_strip_zeros]
  | cons c rest ih =>
    by_cases h : c = '0'
    · simp only [py_strip_zeros, h, if_true]
      exact ih.trans (List.suffix_cons '0' rest)
    · simp [py_strip_zeros, h]

/-- Every character of `py_strip_zeros n` is a character of `n`. -/
theorem py_strip_zeros_mem {c : Char} {n : List Char}
    (h : c ∈ py_strip_zeros n) : c ∈ n :=
  (py_strip_zeros_suffix n).sublist.subset h

theorem py_strip_zeros_length (n : List Char) :
    (py_strip_zeros n).length ≤ n.length :=
  (py_strip_zeros_suffix n).sublist.length_le

/-- The result of `py_strip_zeros` is empty or starts with a nonzero
character. -/
theorem py_strip_zeros_head (n : List Char) :
    py_strip_zeros n = [] ∨
      ∃ c rest, py_strip_zeros n = c :: rest ∧ c ≠ '0' := by
  induction n with
  | nil => left; rfl
  | cons c rest ih =>
    by_cases h : c = '0'
    · simpa [py_strip_zeros, h] using ih
    · right; exact ⟨c, rest, by simp [py_strip_zeros, h], h⟩

/-- A successful association-list lookup returns one of the stored values. -/
theorem lookup_some_val_mem {α β : Type} [BEq α] {l : List (α × β)} {k : α} {v : β}
    (h : List.lookup k l = some v) : v ∈ l.map Prod.snd := by
  induction l with
  | nil => simp [List.lookup] at h
  | cons kv rest ih =>
    rw [List.lookup] at h
    by_cases hk : (k == kv.1) = true
    · simp only [hk, if_true] at h
      injection h with h2
      rw [List.map_cons]
      exact List.mem_cons.mpr (Or.inl h2.symm)
    · simp only [hk, if_false] at h
      simp [ih h]

/-- A successful association-list lookup means the key is among the stored
keys. -/
theorem lookup_some_key_mem {α β : Type} [BEq α] [LawfulBEq α] {l : List (α × β)}
    {k : α} {v : β} (h : List.lookup k l = some v) : k ∈ l.map Prod.fst := by
  induction l with
  | nil => simp [List.lookup] at h
  | cons kv rest ih =>
    rw [List.lookup] at h
    by_cases hk : (k == kv.1) = true
    · simp [eq_of_beq hk]
    · simp only [hk, if_false] at h
      simp [ih h]

/-- `char_phones` succeeds when every character has a rule, and emits one
table value per character. -/
theorem char_phones_ok {g : List Char}
    (h : ∀ c ∈ g, (List.lookup c character_rules).isSome = true) :
    ∃ vs, char_phones g = .ok vs ∧ vs.length = g.length ∧
      ∀ v ∈ vs, v ∈ character_rules.map Prod.snd := by
  induction g with
  | nil => exact ⟨[], rfl, rfl, by simp⟩
  | cons c cs ih =>
    obtain ⟨v, hv⟩ := Option.isSome_iff_exists.mp (h c (by simp))
    obtain ⟨vs, hvs, hlen, hmem⟩ := ih (fun x hx => h x (by simp [hx]))
    refine ⟨v :: vs, ?_, by simp [hlen], ?_⟩
    · simp [char_phones, hv, hvs, except_bind_ok]
    · intro t ht
      rcases List.mem_cons.mp ht with rfl | ht
      · exact lookup_some_val_mem hv
      · exact hmem t ht

/-- Every couple produced by `_get_word_couples` has exactly two characters,
draws them from the word, and the couple list is non-empty as soon as the
word has two characters. -/
theorem get_word_couples_facts (w : List Char) :
    (∀ g ∈ get_word_couples w, g.length = 2 ∧ ∀ c ∈ g, c ∈ w) ∧
      (2 ≤ w.length → get_word_couples w ≠ []) := by
  induction w with
  | nil => simp [get_word_couples]
  | cons c1 rest ih =>
    cases rest with
    | nil => simp [get_word_couples]
    | cons c2 r2 =>
      constructor
      · intro g hg
        rw [get_word_couples] at hg
        rcases List.mem_cons.mp hg with rfl | hg
        · exact ⟨rfl, by intro c hc; simp at hc; rcases hc with rfl | rfl <;> simp⟩
        · obtain ⟨hlen, hmem⟩ := ih.1 g hg
          exact ⟨hlen, fun c hc => List.mem_cons_of_mem _ (hmem c hc)⟩
      · intro _
        rw [get_word_couples]
        simp

/-- The couple scan of `_check_till_dipthongs` succeeds whenever the head
couple has one or two characters, every later couple has exactly two, and
every character has a rule; every emitted token is a rule value, and the
output is non-empty as soon as a couple or an accumulated phoneme exists. -/
theorem diphthong_scan_ok :
    ∀ (fuel : Nat) (gs : List (List Char)) (phons : List String),
      gs.length ≤ fuel →
      (∀ g ∈ gs.take 1, g.length = 1 ∨ g.length = 2) →
      (∀ g ∈ gs.drop 1, g.length = 2) →
      (∀ g ∈ gs, ∀ c ∈ g, (List.lookup c character_rules).isSome = true) →
      (∀ t ∈ phons, t ∈ all_rule_values) →
      ∃ out, diphthong_scan fuel gs phons = .ok out ∧
        (∀ t ∈ out, t ∈ all_rule_values) ∧
        ((gs ≠ [] ∨ phons ≠ []) → out ≠ []) := by
  intro fuel
  induction fuel with
  | zero =>
    intro gs phons hfuel _ _ _ hphons
    have : gs = [] := List.length_eq_zero.mp (Nat.le_zero.mp hfuel)
    subst this
    exact ⟨phons, rfl, hphons, fun h => by
      rcases h with h | h
      · exact absurd rfl h
      · intro hc; subst hc; simp at h⟩
  | succ fuel ih =>
    intro gs phons hfuel hhd htl hcov hphons
    cases gs with
    | nil =>
      exact ⟨phons, rfl, hphons, fun h => by
        rcases h with h | h
        · exact absurd rfl h
        · intro hc; subst hc; simp at h⟩
    | cons g rest =>
      have hglen : g.length = 1 ∨ g.length = 2 := hhd g (by simp)
      have hgcov : ∀ c ∈ g, (List.lookup c character_rules).isSome = true :=
        hcov g (by simp)
      rcases hlk : List.lookup (String.mk g) diphthong_rules with _ | v
      · -- no diphthong: per-character phonemes
        obtain ⟨vs, hvs, hvslen, hvsmem⟩ := char_phones_ok hgcov
        have hvsne : vs ≠ [] := by
          intro hc
          rw [hc] at hvslen
          rcases hglen with h | h <;> simp [h] at hvslen
        have hmem2 : ∀ t ∈ phons ++ vs, t ∈ all_rule_values := by
          intro t ht
          rcases List.mem_append.mp ht with ht | ht
          · exact hphons t ht
          · exact List.mem_append.mpr (Or.inl (hvsmem t ht))
        have hne2 : phons ++ vs ≠ [] := by
          intro hc
          exact hvsne (List.append_eq_nil.mp hc).2
        cases rest with
        | nil =>
          refine ⟨phons ++ vs, ?_, hmem2, fun _ => hne2⟩
          simp [diphthong_scan, hlk, hvs, except_bind_ok]
        | cons d rest2 =>
          have hd2 : d.length = 2 := htl d (by simp)
          obtain ⟨a, b, rfl⟩ := List.length_eq_two.mp hd2
          have hdcov : ∀ c ∈ [a, b], (List.lookup c character_rules).isSome = true :=
            hcov [a, b] (by simp)
          have htl2 : ∀ g ∈ rest2, g.length = 2 :=
            fun g hg => htl g (by simp [hg])
          by_cases hdip : (List.lookup (String.mk [a, b]) diphthong_rules).isSome = true
          · obtain ⟨out, hout, homem, hone⟩ := ih ([a, b] :: rest2) (phons ++ vs)
              (by simpa using hfuel)
              (by intro g hg; simp at hg; subst hg; right; rfl)
              (by intro g hg; simp at hg; exact htl2 g hg)
              (by intro g hg; rcases List.mem_cons.mp hg with rfl | hg
                  · exact hdcov
                  · exact hcov g (by simp [hg]))
              hmem2
            refine ⟨out, ?_, homem, fun _ => hone (Or.inr hne2)⟩
            simp [diphthong_scan, hlk, hvs, except_bind_ok, hdip, hout]
          · obtain ⟨out, hout, homem, hone⟩ := ih ([b] :: rest2) (phons ++ vs)
              (by simpa using hfuel)
              (by intro g hg; simp at hg; subst hg; left; rfl)
              (by intro g hg; simp at hg; exact htl2 g hg)
              (by intro g2 hg2; rcases List.mem_cons.mp hg2 with rfl | hg2
                  · intro x hx
                    simp only [List.mem_singleton] at hx
                    subst hx
                    exact hdcov _ (by simp)
                  · exact hcov g2 (by simp [hg2]))
              hmem2
            refine ⟨out, ?_, homem, fun _ => hone (Or.inr hne2)⟩
            simp only [diphthong_scan, hlk, hvs, except_bind_ok]
            simp only [Bool.not_eq_true] at hdip
            simp [hdip, hout]
      · -- diphthong matched
        have hvmem : v ∈ all_rule_values :=
          List.mem_append.mpr (Or.inr (lookup_some_val_mem hlk))
        have hmem2 : ∀ t ∈ phons.dropLast ++ [v], t ∈ all_rule_values := by
          intro t ht
          rcases List.mem_append.mp ht with ht | ht
          · exact hphons t ((List.dropLast_sublist phons).subset ht)
          · simp at ht; subst ht; exact hvmem
        have hne2 : phons.dropLast ++ [v] ≠ [] := by simp
        cases rest with
        | nil =>
          refine ⟨phons.dropLast ++ [v], ?_, hmem2, fun _ => hne2⟩
          simp [diphthong_scan, hlk]
        | cons d rest2 =>
          have hd2 : d.length = 2 := htl d (by simp)
          obtain ⟨a0, b0, rfl⟩ := List.length_eq_two.mp hd2
          have hlast : [a0, b0].getLast? = some b0 := by simp
          have hbcov : (List.lookup b0 character_rules).isSome = true :=
            hcov [a0, b0] (by simp) b0 (by simp)
          obtain ⟨out, hout, homem, hone⟩ := ih ([b0] :: rest2) (phons.dropLast ++ [v])
            (by simpa using hfuel)
            (by intro g hg; simp at hg; subst hg; left; rfl)
            (by intro g hg; simp at hg; exact htl g (by simp [hg]))
            (by intro g2 hg2; rcases List.mem_cons.mp hg2 with rfl | hg2
                · intro x hx
                  simp only [List.mem_singleton] at hx
                  subst hx
                  exact hbcov
                · exact hcov g2 (by simp [hg2]))
            hmem2
          refine ⟨out, ?_, homem, fun _ => hone (Or.inr hne2)⟩
          simp [diphthong_scan, hlk, hlast, hout]

theorem splitCharAux_ne_nil (sep : Char) (l : List Char) :
    splitCharAux sep l ≠ [] := by
  cases l with
  | nil => simp [splitCharAux]
  | cons c cs =>
    rw [splitCharAux]
    rcases h : splitCharAux sep cs with _ | ⟨p, ps⟩
    · by_cases hc : c = sep <;> simp [hc]
    · by_cases hc : c = sep <;> simp [hc]

/-- Splitting on a separator distributes over concatenation at a separator. -/
theorem splitCharAux_append (sep : Char) (a b : List Char) :
    splitCharAux sep (a ++ sep :: b) =
      splitCharAux sep a ++ splitCharAux sep b := by
  induction a with
  | nil =>
    rcases h : splitCharAux sep b with _ | ⟨p, ps⟩
    · exact absurd h (splitCharAux_ne_nil sep b)
    · simp [splitCharAux, h]
  | cons c a' ih =>
    rcases h' : splitCharAux sep a' with _ | ⟨p, ps⟩
    · exact absurd h' (splitCharAux_ne_nil sep a')
    · have : splitCharAux sep (a' ++ sep :: b) = (p :: ps) ++ splitCharAux sep b := by
        rw [ih, h']
      rw [List.cons_append, splitCharAux, this, splitCharAux, h']
      by_cases hc : c = sep <;> simp [hc]

theorem pyJoin_cons (sep x : String) {xs : List String} (h : xs ≠ []) :
    pyJoin sep (x :: xs) = x ++ sep ++ pyJoin sep xs := by
  cases xs with
  | nil => exact absurd rfl h
  | cons y ys => rfl

/-- For a non-empty phoneme list, `" ".join(...).split(" ")` splits each entry
on its internal spaces and concatenates the pieces. -/
theorem flatten_eq_flatMap {phs : List String} (h : phs ≠ []) :
    flatten_phonemes phs = phs.flatMap (fun t => pySplitChar ' ' t) := by
  induction phs with
  | nil => exact absurd rfl h
  | cons x xs ih =>
    cases xs with
    | nil => simp [flatten_phonemes, pyJoin, List.flatMap]
    | cons y ys =>
      have hne : y :: ys ≠ [] := by simp
      have hdata : (pyJoin " " (x :: y :: ys)).data =
          x.data ++ ' ' :: (pyJoin " " (y :: ys)).data := by
        rw [pyJoin_cons " " x hne, String.data_append, String.data_append,
          show (" " : String).data = [' '] from rfl, List.append_assoc]
        rfl
      calc flatten_phonemes (x :: y :: ys)
          = (splitCharAux ' ' (x.data ++ ' ' :: (pyJoin " " (y :: ys)).data)).map
              String.mk := by rw [flatten_phonemes, pySplitChar, hdata]
        _ = pySplitChar ' ' x ++ flatten_phonemes (y :: ys) := by
              rw [splitCharAux_append, List.map_append]; rfl
        _ = (x :: y :: ys).flatMap (fun t => pySplitChar ' ' t) := by
              rw [ih hne]
              simp only [List.flatMap_cons]

theorem string_data_ne_nil {s : String} (h : s ≠ "") : s.data ≠ [] := by
  intro hc
  apply h
  cases s with
  | mk d => exact congrArg String.mk hc

/-- The consonant-doubling collapse succeeds when no phoneme is the empty
string; its output consists of input entries and is non-empty when the input
is. -/
theorem dedup_pass_ok : ∀ (n : Nat) (l : List String), l.length ≤ n →
    (∀ t ∈ l, t ≠ "") →
    ∃ m, dedup_pass l = .ok m ∧ (∀ t ∈ m, t ∈ l) ∧ (l ≠ [] → m ≠ []) := by
  intro n
  induction n with
  | zero =>
    intro l hl _
    have : l = [] := List.length_eq_zero.mp (Nat.le_zero.mp hl)
    subst this
    exact ⟨[], rfl, by simp, fun h => absurd rfl h⟩
  | succ n ih =>
    intro l hl hne
    match l with
    | [] => exact ⟨[], rfl, by simp, fun h => absurd rfl h⟩
    | [p] => exact ⟨[p], rfl, by simp, fun _ => by simp⟩
    | p :: q :: rest =>
      obtain ⟨q0, qs, hq⟩ : ∃ q0 qs, q.data = q0 :: qs := by
        rcases hqd : q.data with _ | ⟨q0, qs⟩
        · exact absurd hqd (string_data_ne_nil (hne q (by simp)))
        · exact ⟨q0, qs, rfl⟩
      by_cases heq : p = String.mk [q0]
      · obtain ⟨m, hm, hsub, _⟩ := ih rest
          (by simp only [List.length_cons] at hl; omega)
          (fun t ht => hne t (by simp [ht]))
        refine ⟨p :: m, ?_, ?_, fun _ => by simp⟩
        · simp [dedup_pass, hq, heq, hm, except_bind_ok]
        · intro t ht
          rcases List.mem_cons.mp ht with rfl | ht
          · simp
          · simp [List.mem_cons_of_mem, hsub t ht]
      · obtain ⟨m, hm, hsub, _⟩ := ih (q :: rest)
          (by simp only [List.length_cons] at hl ⊢
              omega)
          (fun t ht => hne t (by simp at ht ⊢; tauto))
        refine ⟨p :: m, ?_, ?_, fun _ => by simp⟩
        · simp [dedup_pass, hq, heq, hm, except_bind_ok]
        · intro t ht
          rcases List.mem_cons.mp ht with rfl | ht
          · simp
          · have := hsub t ht
            simp at this ⊢
            tauto

/-- Adjacent pairs of a list are adjacent pairs of any extension by one
element at the front. -/
theorem zip_tail_cons_subset (x : String) (l : List String) :
    ∀ pr ∈ l.zip l.tail, pr ∈ (x :: l).zip ((x :: l).tail) := by
  cases l with
  | nil => simp
  | cons y l2 =>
    intro pr hpr
    simp only [List.tail_cons] at hpr ⊢
    rw [List.zip_cons_cons]
    exact List.mem_cons_of_mem _ hpr

/-- An element of the input survives the consonant-doubling collapse whenever
no adjacent pair of the input consists of a `good` element preceded by the
one-character string made of its first character. -/
theorem dedup_pass_keeps (good : String → Prop) :
    ∀ (n : Nat) (l m : List String), l.length ≤ n → dedup_pass l = .ok m →
      (∀ a b, (a, b) ∈ l.zip l.tail → good b →
        ∀ b0 bs, b.data = b0 :: bs → a ≠ String.mk [b0]) →
      ∀ t ∈ l, good t → t ∈ m := by
  intro n
  induction n with
  | zero =>
    intro l m hl _ _ t ht _
    have : l = [] := List.length_eq_zero.mp (Nat.le_zero.mp hl)
    subst this
    simp at ht
  | succ n ih =>
    intro l m hl hm hadj t ht hgood
    match l, ht with
    | [p], ht =>
      obtain rfl : m = [p] := by
        simp only [dedup_pass] at hm
        injection hm with hm
        exact hm.symm
      exact ht
    | p :: q :: rest, ht =>
      rcases hqd : q.data with _ | ⟨q0, qs⟩
      · rw [dedup_pass, hqd] at hm
        exact absurd hm (by simp)
      · rw [dedup_pass, hqd] at hm
        have hadj' : ∀ a b, (a, b) ∈ (q :: rest).zip (q :: rest).tail → good b →
            ∀ b0 bs, b.data = b0 :: bs → a ≠ String.mk [b0] :=
          fun a b hab => hadj a b (zip_tail_cons_subset p (q :: rest) (a, b) hab)
        by_cases heq : p = String.mk [q0]
        · simp only [heq, if_true] at hm
          rcases hdr : dedup_pass rest with e | m'
          · rw [hdr, except_bind_err] at hm
            exact Except.noConfusion hm
          · rw [hdr] at hm
            simp only [except_bind_ok] at hm
            injection hm with hm
            subst hm
            rcases List.mem_cons.mp ht with rfl | ht2
            · exact List.mem_cons.mpr (Or.inl heq)
            · rcases List.mem_cons.mp ht2 with rfl | ht3
              · exfalso
                exact hadj p t (by simp) hgood q0 qs hqd heq
              · have hadj2 : ∀ a b, (a, b) ∈ rest.zip rest.tail → good b →
                    ∀ b0 bs, b.data = b0 :: bs → a ≠ String.mk [b0] :=
                  fun a b hab => hadj' a b (zip_tail_cons_subset q rest (a, b) hab)
                exact List.mem_cons_of_mem _
                  (ih rest m' (by simp only [List.length_cons] at hl; omega)
                    hdr hadj2 t ht3 hgood)
        · simp only [heq, if_false] at hm
          rcases hdr : dedup_pass (q :: rest) with e | m'
          · rw [hdr, except_bind_err] at hm
            exact Except.noConfusion hm
          · rw [hdr] at hm
            simp only [except_bind_ok] at hm
            injection hm with hm
            subst hm
            rcases List.mem_cons.mp ht with rfl | ht2
            · simp
            · exact List.mem_cons_of_mem _
                (ih (q :: rest) m'
                  (by simp only [List.length_cons] at hl ⊢; omega)
                  hdr hadj' t ht2 hgood)

/-- Splitting any rule value on spaces gives a non-empty list of tokens from
the phoneme inventory. -/
theorem rule_values_split_parts :
    ∀ v ∈ all_rule_values, pySplitChar ' ' v ≠ [] ∧
      ∀ t ∈ pySplitChar ' ' v, t ∈ phoneme_parts := by decide

theorem phoneme_parts_ne_empty : ∀ t ∈ phoneme_parts, t ≠ "" := by decide

theorem stress_mark_mem_parts :
    ∀ t ∈ phoneme_parts, stress_mark t ∈ phoneme_parts := by decide

theorem stress_mark_vowel : ∀ t ∈ phoneme_parts, t ∈ vowel_phonemes →
    stress_mark t ∈ stressed_vowel_phonemes := by decide

theorem stressed_sub_vowel :
    ∀ t ∈ stressed_vowel_phonemes, t ∈ vowel_phonemes := by decide

/-- The only bare-letter token in the inventory matching a vowel's first
character is `"i"` (emitted by the `"ιο"`/`"ιό"` rules). -/
theorem parts_single_letter_vowel : ∀ t ∈ phoneme_parts,
    t ∈ (["a", "e", "i", "o", "u"] : List String) → t = "i" := by decide

/-- Any rule value whose split contains the bare `"i"` also contributes an
`o`-vowel (the `"ιο"`/`"ιό"` values `"i o0"`/`"i o1"`). -/
theorem rule_values_i_imp_o : ∀ v ∈ all_rule_values, "i" ∈ pySplitChar ' ' v →
    "o0" ∈ pySplitChar ' ' v ∨ "o1" ∈ pySplitChar ' ' v := by decide

theorem stress_mark_eq_i :
    ∀ t ∈ phoneme_parts, stress_mark t = "i" → t = "i" := by decide

theorem stress_mark_i_vowel : ∀ t ∈ phoneme_parts,
    stress_mark t ∈ (["i0", "i1"] : List String) →
      t ∈ (["i0", "i1"] : List String) := by decide

theorem stress_mark_not_vowel {t : String} (h : ¬t ∈ vowel_phonemes) :
    stress_mark t = t := by simp [stress_mark, h]

theorem char_keys_facts : ∀ kv ∈ character_rules,
    pyIsSpace kv.1 = false ∧ pyIsDigitChar kv.1 = false := by decide

/-- A character that has a rule is neither whitespace nor a digit. -/
theorem ruled_char_props {c : Char}
    (h : (List.lookup c character_rules).isSome = true) :
    pyIsSpace c = false ∧ pyIsDigitChar c = false := by
  obtain ⟨v, hv⟩ := Option.isSome_iff_exists.mp h
  obtain ⟨kv, hkv, hfst⟩ := List.mem_map.mp (lookup_some_key_mem hv)
  rw [← hfst]
  exact char_keys_facts kv hkv

theorem dropWhile_eq_self_of {p : Char → Bool} {l : List Char}
    (h : ∀ c ∈ l, p c = false) : l.dropWhile p = l := by
  cases l with
  | nil => rfl
  | cons c cs => simp [List.dropWhile, h c (by simp)]

theorem pyStripList_eq_self {l : List Char}
    (h : ∀ c ∈ l, pyIsSpace c = false) : pyStripList l = l := by
  rw [pyStripList, dropWhile_eq_self_of h,
    dropWhile_eq_self_of (fun c hc => h c (List.mem_reverse.mp hc)),
    List.reverse_reverse]

/-- `word.strip()` leaves a word of rule-covered characters unchanged. -/
theorem ruled_strip_id {w : List Char}
    (hr : ∀ c ∈ w, (List.lookup c character_rules).isSome = true) :
    pyStrip (String.mk w) = String.mk w := by
  rw [pyStrip]
  exact congrArg String.mk (pyStripList_eq_self
    (fun c hc => (ruled_char_props (hr c hc)).1))

/-- A word of rule-covered characters is not a digit string. -/
theorem ruled_not_digit {w : List Char}
    (hr : ∀ c ∈ w, (List.lookup c character_rules).isSome = true) :
    pyIsdigit (String.mk w) = false := by
  cases w with
  | nil => rfl
  | cons c cs =>
    have hc : pyIsDigitChar c = false := (ruled_char_props (hr c (by simp))).2
    simp [pyIsdigit, List.all_cons, hc]

/-- A list with two distinct members has at least two elements. -/
theorem two_mem_length {α : Type} {l : List α} {a b : α} (ha : a ∈ l)
    (hb : b ∈ l) (hne : a ≠ b) : 2 ≤ l.length := by
  cases l with
  | nil => simp at ha
  | cons x xs =>
    cases xs with
    | nil =>
      simp at ha hb
      exact absurd (ha.trans hb.symm) hne
    | cons y ys =>
      simp only [List.length_cons]
      omega

/-- One unfolding of `convert_word` for a word that is not numeric after
stripping: it goes straight to the scan. -/
theorem convert_word_fuel_not_digit (fuel : Nat) (w0 : String)
    (hd : pyIsdigit (pyStrip w0) = false) :
    convert_word_fuel (fuel + 1) w0 = convert_word_scan (pyStrip w0) := by
  rw [convert_word_fuel.eq_def]
  simp only [hd, Bool.false_eq_true, if_false]

/-- `convert_1digit` succeeds on every one-digit number. -/
theorem convert_1digit_ok {n : List Char} (hl : n.length = 1)
    (hd : ∀ c ∈ n, pyIsDigitChar c = true) : pyOk (convert_1digit n) = true := by
  match n, hl with
  | [c], _ =>
    rcases pyIsDigitChar_cases (hd c (by simp)) with
      rfl | rfl | rfl | rfl | rfl | rfl | rfl | rfl | rfl | rfl <;> decide

/-- `convert_2digit` succeeds on every two-digit number. -/
theorem convert_2digit_ok {n : List Char} (hl : n.length = 2)
    (hd : ∀ c ∈ n, pyIsDigitChar c = true) : pyOk (convert_2digit n) = true := by
  match n, hl with
  | [c0, c1], _ =>
    rcases pyIsDigitChar_cases (hd c0 (by simp)) with
      rfl | rfl | rfl | rfl | rfl | rfl | rfl | rfl | rfl | rfl <;>
    rcases pyIsDigitChar_cases (hd c1 (by simp)) with
      rfl | rfl | rfl | rfl | rfl | rfl | rfl | rfl | rfl | rfl <;> decide

theorem py_strip_zeros_cons_zero (rest : List Char) :
    py_strip_zeros ('0' :: rest) = py_strip_zeros rest := by
  simp [py_strip_zeros]

/-- `convert_3digit` succeeds on every three-digit number. -/
theorem convert_3digit_ok {n : List Char} (hl : n.length = 3)
    (hd : ∀ c ∈ n, pyIsDigitChar c = true) : pyOk (convert_3digit n) = true := by
  have hc : check_input_eq n 3 = .ok () := by simp [check_input_eq, hl]
  have hd' : ∀ c ∈ py_strip_zeros n, pyIsDigitChar c = true :=
    fun c hmem => hd c (py_strip_zeros_mem hmem)
  have hlen := py_strip_zeros_length n
  rcases hlk : List.lookup (String.mk n) digit_words_3 with _ | v
  · simp only [convert_3digit, hc, except_bind_ok, hlk]
    rcases py_strip_zeros_head n with h0 | ⟨c, rest, heq, hcz⟩
    · rw [h0]; simp [pyOk]
    · rw [heq] at hd' hlen ⊢
      rw [hl] at hlen
      match rest, hlen with
      | [], _ =>
        simp only [List.length_cons, List.length_nil]
        norm_num
        exact convert_1digit_ok rfl hd'
      | [c1], _ =>
        simp only [List.length_cons, List.length_nil]
        norm_num
        exact convert_2digit_ok rfl hd'
      | [c1, c2], _ =>
        simp only [List.length_cons, List.length_nil]
        norm_num
        rcases pyIsDigitChar_cases (hd' c (by simp)) with
          rfl | rfl | rfl | rfl | rfl | rfl | rfl | rfl | rfl | rfl
        · exact absurd rfl hcz
        all_goals
          obtain ⟨s, hs⟩ := pyOk_eq_true.mp
            (convert_2digit_ok (n := [c1, c2]) rfl (fun c hmem => hd' c (by simp [hmem])))
          simp [pyOk, hs, except_bind_ok, List.lookup, digit_words_3]
  · simp [convert_3digit, hc, except_bind_ok, hlk, pyOk]

/-- `convert_4digit` succeeds on every four-digit number. -/
theorem convert_4digit_ok {n : List Char} (hl : n.length = 4)
    (hd : ∀ c ∈ n, pyIsDigitChar c = true) : pyOk (convert_4digit n) = true := by
  have hc : check_input_eq n 4 = .ok () := by simp [check_input_eq, hl]
  rcases hlk : List.lookup (String.mk n) digit_words_4 with _ | v
  case some => simp [convert_4digit, hc, except_bind_ok, hlk, pyOk]
  match n, hl with
  | [c0, c1, c2, c3], _ =>
  by_cases hz : ([c0, c1, c2, c3].all fun c => decide (c = '0')) = true
  · simp only [List.all_cons, List.all_nil, Bool.and_true, Bool.and_eq_true,
      decide_eq_true_eq] at hz
    obtain ⟨rfl, rfl, rfl, rfl⟩ := hz
    decide
  · have hsn : py_strip_zeros_noupdate [c0, c1, c2, c3] =
        py_strip_zeros [c0, c1, c2, c3] := by
      simp [py_strip_zeros_noupdate, hz]
    simp only [convert_4digit, hc, except_bind_ok, hlk, hsn]
    by_cases h0 : c0 = '0'
    · subst h0
      have hd' : ∀ c ∈ py_strip_zeros [c1, c2, c3], pyIsDigitChar c = true :=
        fun c hmem => hd c (List.mem_cons_of_mem _ (py_strip_zeros_mem hmem))
      have hlen := py_strip_zeros_length [c1, c2, c3]
      simp only [List.length_cons, List.length_nil] at hlen
      rw [py_strip_zeros_cons_zero]
      rcases py_strip_zeros_head [c1, c2, c3] with h0' | ⟨c, rest, heq, hcz⟩
      · rw [h0']; simp [pyOk]
      · rw [heq] at hd' hlen ⊢
        match rest, hlen with
        | [], _ =>
          simp only [List.length_cons, List.length_nil]
          norm_num
          exact convert_1digit_ok rfl hd'
        | [d1], _ =>
          simp only [List.length_cons, List.length_nil]
          norm_num
          exact convert_2digit_ok rfl hd'
        | [d1, d2], _ =>
          simp only [List.length_cons, List.length_nil]
          norm_num
          exact convert_3digit_ok rfl hd'
    · have hstr : py_strip_zeros [c0, c1, c2, c3] = [c0, c1, c2, c3] := by
        simp [py_strip_zeros, h0]
      rw [hstr]
      simp only [List.length_cons, List.length_nil]
      norm_num
      have hd3 : ∀ c ∈ [c1, c2, c3], pyIsDigitChar c = true :=
        fun c hmem => hd c (List.mem_cons_of_mem _ hmem)
      obtain ⟨s, hs⟩ := pyOk_eq_true.mp (convert_3digit_ok (n := [c1, c2, c3]) rfl hd3)
      rcases pyIsDigitChar_cases (hd c0 (by simp)) with
        rfl | rfl | rfl | rfl | rfl | rfl | rfl | rfl | rfl | rfl
      · exact absurd rfl h0
      all_goals simp [pyOk, hs, except_bind_ok, List.lookup, digit_words_4]

/-- `convert_5digit` succeeds on every five-digit number. -/
theorem convert_5digit_ok {n : List Char} (hl : n.length = 5)
    (hd : ∀ c ∈ n, pyIsDigitChar c = true) : pyOk (convert_5digit n) = true := by
  have hc : check_input_eq n 5 = .ok () := by simp [check_input_eq, hl]
  rcases hlk : List.lookup (String.mk n) digit_words_5 with _ | v
  case some => simp [convert_5digit, hc, except_bind_ok, hlk, pyOk]
  match n, hl with
  | [c0, c1, c2, c3, c4], _ =>
  by_cases hz : ([c0, c1, c2, c3, c4].all fun c => decide (c = '0')) = true
  · simp only [List.all_cons, List.all_nil, Bool.and_true, Bool.and_eq_true,
      decide_eq_true_eq] at hz
    obtain ⟨rfl, rfl, rfl, rfl, rfl⟩ := hz
    decide
  · have hsn : py_strip_zeros_noupdate [c0, c1, c2, c3, c4] =
        py_strip_zeros [c0, c1, c2, c3, c4] := by
      simp [py_strip_zeros_noupdate, hz]
    simp only [convert_5digit, hc, except_bind_ok, hlk, hsn]
    by_cases h0 : c0 = '0'
    · subst h0
      have hd' : ∀ c ∈ py_strip_zeros [c1, c2, c3, c4], pyIsDigitChar c = true :=
        fun c hmem => hd c (List.mem_cons_of_mem _ (py_strip_zeros_mem hmem))
      have hlen := py_strip_zeros_length [c1, c2, c3, c4]
      simp only [List.length_cons, List.length_nil] at hlen
      rw [py_strip_zeros_cons_zero]
      rcases py_strip_zeros_head [c1, c2, c3, c4] with h0' | ⟨c, rest, heq, hcz⟩
      · rw [h0']; simp [pyOk]
      · rw [heq] at hd' hlen ⊢
        match rest, hlen with
        | [], _ =>
          simp only [List.length_cons, List.length_nil]
          norm_num
          exact convert_1digit_ok rfl hd'
        | [d1], _ =>
          simp only [List.length_cons, List.length_nil]
          norm_num
          exact convert_2digit_ok rfl hd'
        | [d1, d2], _ =>
          simp only [List.length_cons, List.length_nil]
          norm_num
          exact convert_3digit_ok rfl hd'
        | [d1, d2, d3], _ =>
          simp only [List.length_cons, List.length_nil]
          norm_num
          exact convert_4digit_ok rfl hd'
    · have hstr : py_strip_zeros [c0, c1, c2, c3, c4] = [c0, c1, c2, c3, c4] := by
        simp [py_strip_zeros, h0]
      rw [hstr]
      simp only [List.length_cons, List.length_nil]
      norm_num
      obtain ⟨s2, hs2⟩ := pyOk_eq_true.mp (convert_2digit_ok (n := [c0, c1]) rfl
        (fun c hmem => hd c (by revert hmem; simp; rintro (rfl | rfl) <;> simp)))
      obtain ⟨s3, hs3⟩ := pyOk_eq_true.mp (convert_3digit_ok (n := [c2, c3, c4]) rfl
        (fun c hmem => hd c (by revert hmem; simp; rintro (rfl | rfl | rfl) <;> simp)))
      simp [pyOk, hs2, hs3, except_bind_ok]

/-- `convert_6digit` succeeds on every six-digit number. -/
theorem convert_6digit_ok {n : List Char} (hl : n.length = 6)
    (hd : ∀ c ∈ n, pyIsDigitChar c = true) : pyOk (convert_6digit n) = true := by
  have hc : check_input_eq n 6 = .ok () := by simp [check_input_eq, hl]
  rcases hlk : List.lookup (String.mk n) digit_words_6 with _ | v
  case some => simp [convert_6digit, hc, except_bind_ok, hlk, pyOk]
  have hd' : ∀ c ∈ py_strip_zeros n, pyIsDigitChar c = true :=
    fun c hmem => hd c (py_strip_zeros_mem hmem)
  have hlen := py_strip_zeros_length n
  rw [hl] at hlen
  simp only [convert_6digit, hc, except_bind_ok, hlk]
  have hcases : (py_strip_zeros n).length = 0 ∨ (py_strip_zeros n).length = 1 ∨
      (py_strip_zeros n).length = 2 ∨ (py_strip_zeros n).length = 3 ∨
      (py_strip_zeros n).length = 4 ∨ (py_strip_zeros n).length = 5 ∨
      (py_strip_zeros n).length = 6 := by omega
  rcases hcases with hm | hm | hm | hm | hm | hm | hm <;> simp only [hm] <;> norm_num
  · simp [pyOk]
  · obtain ⟨s, hs⟩ := pyOk_eq_true.mp (convert_1digit_ok hm hd')
    simp [pyOk, hs]
  · obtain ⟨s, hs⟩ := pyOk_eq_true.mp (convert_2digit_ok hm hd')
    simp [pyOk, hs]
  · obtain ⟨s, hs⟩ := pyOk_eq_true.mp (convert_3digit_ok hm hd')
    simp [pyOk, hs]
  · obtain ⟨s, hs⟩ := pyOk_eq_true.mp (convert_4digit_ok hm hd')
    simp [pyOk, hs]
  · obtain ⟨s, hs⟩ := pyOk_eq_true.mp (convert_5digit_ok hm hd')
    simp [pyOk, hs]
  · obtain ⟨sa, hsa⟩ := pyOk_eq_true.mp
      (convert_3digit_ok (n := (py_strip_zeros n).drop 3)
        (by simp [List.length_drop, hm]) (fun c hc => hd' c (List.drop_subset _ _ hc)))
    obtain ⟨sb, hsb⟩ := pyOk_eq_true.mp
      (convert_3digit_ok (n := (py_strip_zeros n).take 3)
        (by simp [List.length_take, hm]) (fun c hc => hd' c (List.take_subset _ _ hc)))
    by_cases h000 : (py_strip_zeros n).take 3 = ['0', '0', '0']
    · simp [pyOk, hsa, hsb, except_bind_ok, h000]
    · simp [pyOk, hsa, hsb, except_bind_ok, h000]

/-- `_convert_more_than7_less_than10_digits` succeeds on every number of 7 to
9 digits. -/
theorem convert_7to9digit_ok {n : List Char} (h7 : 7 ≤ n.length)
    (h9 : n.length ≤ 9) (hd : ∀ c ∈ n, pyIsDigitChar c = true) :
    pyOk (convert_7to9digit n) = true := by
  have hcge : check_input_ge n 7 = .ok () := by simp [check_input_ge, h7]
  have hcle : check_input_le n 9 = .ok () := by simp [check_input_le, h9]
  simp only [convert_7to9digit, hcge, hcle, except_bind_ok]
  by_cases hsing : n.length = 7 ∧ n.take 1 = ['1']
  · obtain ⟨s, hs⟩ := pyOk_eq_true.mp (convert_6digit_ok (n := n.tail)
      (by simp [List.length_tail, hsing.1]) (fun c hc => hd c (List.mem_of_mem_tail hc)))
    simp [hsing, hs, pyOk, except_bind_ok]
  · simp only [if_neg hsing]
    have hd' : ∀ c ∈ py_strip_zeros n, pyIsDigitChar c = true :=
      fun c hmem => hd c (py_strip_zeros_mem hmem)
    have hlen := py_strip_zeros_length n
    have hcases : (py_strip_zeros n).length = 0 ∨ (py_strip_zeros n).length = 1 ∨
        (py_strip_zeros n).length = 2 ∨ (py_strip_zeros n).length = 3 ∨
        (py_strip_zeros n).length = 4 ∨ (py_strip_zeros n).length = 5 ∨
        (py_strip_zeros n).length = 6 ∨ (py_strip_zeros n).length = 7 ∨
        (py_strip_zeros n).length = 8 ∨ (py_strip_zeros n).length = 9 := by omega
    rcases hcases with hm | hm | hm | hm | hm | hm | hm | hm | hm | hm <;>
      simp only [hm] <;> norm_num
    · simp [pyOk]
    · obtain ⟨s, hs⟩ := pyOk_eq_true.mp (convert_1digit_ok hm hd')
      simp [pyOk, hs, except_bind_ok]
    · obtain ⟨s, hs⟩ := pyOk_eq_true.mp (convert_2digit_ok hm hd')
      simp [pyOk, hs, except_bind_ok]
    · obtain ⟨s, hs⟩ := pyOk_eq_true.mp (convert_3digit_ok hm hd')
      simp [pyOk, hs, except_bind_ok]
    · obtain ⟨s, hs⟩ := pyOk_eq_true.mp (convert_4digit_ok hm hd')
      simp [pyOk, hs, except_bind_ok]
    · obtain ⟨s, hs⟩ := pyOk_eq_true.mp (convert_5digit_ok hm hd')
      simp [pyOk, hs, except_bind_ok]
    · obtain ⟨s, hs⟩ := pyOk_eq_true.mp (convert_6digit_ok hm hd')
      simp [pyOk, hs, except_bind_ok]
    · obtain ⟨sa, hsa⟩ := pyOk_eq_true.mp
        (convert_1digit_ok (n := (py_strip_zeros n).take 1)
          (by simp [List.length_take, hm]) (fun c hc => hd' c (List.take_subset _ _ hc)))
      obtain ⟨sb, hsb⟩ := pyOk_eq_true.mp
        (convert_6digit_ok (n := (py_strip_zeros n).tail)
          (by simp [List.length_tail, hm]) (fun c hc => hd' c (List.mem_of_mem_tail hc)))
      simp [pyOk, hsa, hsb, except_bind_ok]
    · obtain ⟨sa, hsa⟩ := pyOk_eq_true.mp
        (convert_2digit_ok (n := (py_strip_zeros n).take 2)
          (by simp [List.length_take, hm]) (fun c hc => hd' c (List.take_subset _ _ hc)))
      obtain ⟨sb, hsb⟩ := pyOk_eq_true.mp
        (convert_6digit_ok (n := (py_strip_zeros n).drop 2)
          (by simp [List.length_drop, hm]) (fun c hc => hd' c (List.drop_subset _ _ hc)))
      simp [pyOk, hsa, hsb, except_bind_ok]
    · obtain ⟨sa, hsa⟩ := pyOk_eq_true.mp
        (convert_3digit_ok (n := (py_strip_zeros n).take 3)
          (by simp [List.length_take, hm]) (fun c hc => hd' c (List.take_subset _ _ hc)))
      obtain ⟨sb, hsb⟩ := pyOk_eq_true.mp
        (convert_6digit_ok (n := (py_strip_zeros n).drop 3)
          (by simp [List.length_drop, hm]) (fun c hc => hd' c (List.drop_subset _ _ hc)))
      simp [pyOk, hsa, hsb, except_bind_ok]

/-- `_convert_more_than10_less_than13_digits` succeeds on every number of 10
to 12 digits. -/
theorem convert_10to12digit_ok {n : List Char} (h10 : 10 ≤ n.length)
    (h12 : n.length ≤ 12) (hd : ∀ c ∈ n, pyIsDigitChar c = true) :
    pyOk (convert_10to12digit n) = true := by
  have hcge : check_input_ge n 10 = .ok () := by simp [check_input_ge, h10]
  have hcle : check_input_le n 12 = .ok () := by simp [check_input_le, h12]
  simp only [convert_10to12digit, hcge, hcle, except_bind_ok]
  have hdrop1 : ∀ k, ∀ c ∈ n.drop k, pyIsDigitChar c = true :=
    fun k c hc => hd c (List.drop_subset _ _ hc)
  have htake1 : ∀ k, ∀ c ∈ n.take k, pyIsDigitChar c = true :=
    fun k c hc => hd c (List.take_subset _ _ hc)
  by_cases hsing : n.length = 10 ∧ n.take 1 = ['1']
  · obtain ⟨s, hs⟩ := pyOk_eq_true.mp (convert_7to9digit_ok (n := n.tail)
      (by simp [List.length_tail, hsing.1]) (by simp [List.length_tail, hsing.1])
      (fun c hc => hd c (List.mem_of_mem_tail hc)))
    simp [hsing, hs, pyOk, except_bind_ok]
  · simp only [if_neg hsing]
    have hcases : n.length = 10 ∨ n.length = 11 ∨ n.length = 12 := by omega
    rcases hcases with hm | hm | hm <;> simp only [hm] <;> norm_num
    · obtain ⟨sa, hsa⟩ := pyOk_eq_true.mp (convert_1digit_ok (n := n.take 1)
        (by simp [List.length_take, hm]) (htake1 1))
      obtain ⟨sb, hsb⟩ := pyOk_eq_true.mp (convert_7to9digit_ok (n := n.tail)
        (by simp [List.length_tail, hm]) (by simp [List.length_tail, hm])
        (fun c hc => hd c (List.mem_of_mem_tail hc)))
      simp [pyOk, hsa, hsb, except_bind_ok]
    · obtain ⟨sa, hsa⟩ := pyOk_eq_true.mp (convert_2digit_ok (n := n.take 2)
        (by simp [List.length_take, hm]) (htake1 2))
      obtain ⟨sb, hsb⟩ := pyOk_eq_true.mp (convert_7to9digit_ok (n := n.drop 2)
        (by simp [List.length_drop, hm]) (by simp [List.length_drop, hm]) (hdrop1 2))
      simp [pyOk, hsa, hsb, except_bind_ok]
    · obtain ⟨sa, hsa⟩ := pyOk_eq_true.mp (convert_3digit_ok (n := n.take 3)
        (by simp [List.length_take, hm]) (htake1 3))
      obtain ⟨sb, hsb⟩ := pyOk_eq_true.mp (convert_7to9digit_ok (n := n.drop 3)
        (by simp [List.length_drop, hm]) (by simp [List.length_drop, hm]) (hdrop1 3))
      simp [pyOk, hsa, hsb, except_bind_ok]

/-! ## Claims -/

/-- Claim C1, counterexample.  `numberToWords("1000000")` does not return
exactly `"ένα εκατομμύριο"`: the singular-million branch of
`_convert_more_than7_less_than10_digits` returns
`"ένα εκατομμύριο " + _convert_6digit("000000")` without `.strip()`, and the
all-zero tail converts to the empty string, so the result carries a trailing
space. -/
theorem c1_counterexample :
    convert_numbers "1000000" = .ok "ένα εκατομμύριο " ∧
      ("ένα εκατομμύριο " : String) ≠ "ένα εκατομμύριο" := by
  constructor
  · decide
  · decide

/-- Claim C1, amended.  `numberToWords("1000000")` returns
`"ένα εκατομμύριο "` — the singular form followed by one trailing space (the
singular early return skips `.strip()`); the plural word `"εκατομμύρια"` never
appears among the words of the result. -/
theorem c1_amended :
    convert_numbers "1000000" = .ok "ένα εκατομμύριο " ∧
      "εκατομμύρια" ∉ pySplitWs "ένα εκατομμύριο " := by
  constructor
  · decide
  · decide

/-- Claim C2, counterexample.  `numberToWords("113")` returns
`"εκατον δεκατρία"` (the hundreds-word table entry is the unaccented
`"εκατον"`), not the claimed `"εκατόν δεκατρία"`. -/
theorem c2_counterexample :
    convert_numbers "113" = .ok "εκατον δεκατρία" ∧
      ("εκατον δεκατρία" : String) ≠ "εκατόν δεκατρία" := by
  constructor
  · decide
  · decide

/-- Claim C2, amended.  The reference values the code actually produces:
`"0"` ↦ `"μηδέν"`, `"10"` ↦ `"δέκα"`, `"113"` ↦ `"εκατον δεκατρία"`
(unaccented table form), `"1000"` ↦ `"χίλια"`, `"2184"` ↦
`"δυο χιλιάδες εκατον ογδοντατέσσερα"` (plural `"δυο"` from `_plural_forms`,
hundreds group run together as `"ογδοντατέσσερα"`); and `"30000000"` converts
to `"τριάντα εκατομμύρια"`, which does contain the plural magnitude word
`"εκατομμύρια"`. -/
theorem c2_amended :
    convert_numbers "0" = .ok "μηδέν" ∧
    convert_numbers "10" = .ok "δέκα" ∧
    convert_numbers "113" = .ok "εκατον δεκατρία" ∧
    convert_numbers "1000" = .ok "χίλια" ∧
    convert_numbers "2184" = .ok "δυο χιλιάδες εκατον ογδοντατέσσερα" ∧
    convert_numbers "30000000" = .ok "τριάντα εκατομμύρια" ∧
    "εκατομμύρια" ∈ pySplitWs "τριάντα εκατομμύρια" := by
  refine ⟨by decide, by decide, by decide, by decide, by decide, by decide, by decide⟩

/-- Claim C3, counterexample.  `numberToWords` does not fail on non-digit
input, nor on the empty input: `convert_numbers` returns any input whose
normalised form is not purely numeric verbatim, with no error — here the
one-letter word `"a"` and the empty string, both of which the claim says must
raise. -/
theorem c3_counterexample :
    convert_numbers "a" = .ok "a" ∧ convert_numbers "" = .ok "" := by
  constructor
  · decide
  · decide

/-- Claim C3, amended.  The only failure of `convert_numbers` is the
`ValueError` for a purely numeric normalised word of more than 12 digits.
An input whose normalised form is not purely numeric — in particular one with
a non-digit character, or the empty string — is returned verbatim with no
error, and no digit string of length 1 to 12 raises anything. -/
theorem c3_amended (w : String) :
    (pyIsdigit (process_word w) = false → convert_numbers w = .ok w) ∧
    (pyIsdigit (process_word w) = true → (process_word w).length ≤ 12 →
      pyOk (convert_numbers w) = true) ∧
    (pyIsdigit (process_word w) = true → 12 < (process_word w).length →
      pyOk (convert_numbers w) = false) := by
  refine ⟨fun h => convert_numbers_of_not_digit w h, ?_, ?_⟩ <;>
    generalize hgen : process_word w = p <;> intro h hlen0
  · have hd : ∀ c ∈ p.data, pyIsDigitChar c = true := by
      have h2 := h
      simp only [pyIsdigit, Bool.and_eq_true, List.all_eq_true] at h2
      exact fun c hc => h2.2 c hc
    have hne : p.data.length ≠ 0 := by
      have h2 := h
      simp only [pyIsdigit, Bool.and_eq_true, Bool.not_eq_true',
        List.isEmpty_eq_false] at h2
      exact fun h0 => h2.1 (List.length_eq_zero.mp h0)
    have hlen : p.data.length ≤ 12 := hlen0
    unfold convert_numbers
    rw [hgen]
    simp only [h, Bool.true_eq_false, if_false]
    have hcases : p.data.length = 1 ∨ p.data.length = 2 ∨
        p.data.length = 3 ∨ p.data.length = 4 ∨
        p.data.length = 5 ∨ p.data.length = 6 ∨
        (7 ≤ p.data.length ∧ p.data.length ≤ 9) ∨
        (10 ≤ p.data.length ∧ p.data.length ≤ 12) := by
      omega
    rcases hcases with hm | hm | hm | hm | hm | hm | hm | hm
    · simp only [hm]; norm_num; exact convert_1digit_ok hm hd
    · simp only [hm]; norm_num; exact convert_2digit_ok hm hd
    · simp only [hm]; norm_num; exact convert_3digit_ok hm hd
    · simp only [hm]; norm_num; exact convert_4digit_ok hm hd
    · simp only [hm]; norm_num; exact convert_5digit_ok hm hd
    · simp only [hm]; norm_num; exact convert_6digit_ok hm hd
    · have h1 : p.data.length ≠ 1 := by omega
      have h2 : p.data.length ≠ 2 := by omega
      have h3 : p.data.length ≠ 3 := by omega
      have h4 : p.data.length ≠ 4 := by omega
      have h5 : p.data.length ≠ 5 := by omega
      have h6 : p.data.length ≠ 6 := by omega
      simp only [if_neg h1, if_neg h2, if_neg h3, if_neg h4, if_neg h5, if_neg h6,
        if_pos hm]
      exact convert_7to9digit_ok hm.1 hm.2 hd
    · have h1 : p.data.length ≠ 1 := by omega
      have h2 : p.data.length ≠ 2 := by omega
      have h3 : p.data.length ≠ 3 := by omega
      have h4 : p.data.length ≠ 4 := by omega
      have h5 : p.data.length ≠ 5 := by omega
      have h6 : p.data.length ≠ 6 := by omega
      have h79 : ¬(7 ≤ p.data.length ∧ p.data.length ≤ 9) := by omega
      simp only [if_neg h1, if_neg h2, if_neg h3, if_neg h4, if_neg h5, if_neg h6,
        if_neg h79, if_pos hm]
      exact convert_10to12digit_ok hm.1 hm.2 hd
  · have hlen : 12 < p.data.length := hlen0
    have h1 : p.data.length ≠ 1 := by omega
    have h2 : p.data.length ≠ 2 := by omega
    have h3 : p.data.length ≠ 3 := by omega
    have h4 : p.data.length ≠ 4 := by omega
    have h5 : p.data.length ≠ 5 := by omega
    have h6 : p.data.length ≠ 6 := by omega
    have h79 : ¬(7 ≤ p.data.length ∧ p.data.length ≤ 9) := by omega
    have h1012 : ¬(10 ≤ p.data.length ∧ p.data.length ≤ 12) := by omega
    unfold convert_numbers
    rw [hgen]
    simp only [h, Bool.true_eq_false, if_false, if_neg h1, if_neg h2, if_neg h3,
      if_neg h4, if_neg h5, if_neg h6, if_neg h79, if_neg h1012]
    rfl

/-- Witness for the amended C3 at concrete inputs: the non-digit word `"a"`
passes through, the two-digit string `"13"` converts without error, and the
13-digit string raises. -/
theorem c3_witness :
    convert_numbers "a" = .ok "a" ∧ pyOk (convert_numbers "13") = true ∧
      pyOk (convert_numbers "1234567890123") = false :=
  ⟨(c3_amended "a").1 (by decide),
   (c3_amended "13").2.1 (by decide) (by decide),
   (c3_amended "1234567890123").2.2 (by decide) (by decide)⟩

/-- Claim C4 (code bug), evaluation at the failing inputs.  The all-zero
inputs of length 2, 3 and 6 do convert to the empty string, but in
`_convert_4digit` and `_convert_5digit` the assignment `number = temp_num`
sits inside the `else` branch of the leading-zero loop, which never runs for
an all-zero number; `"0000"` therefore reaches the table lookup with
`first_digit = "0"` and returns `"μηδέν χιλιάδες"`, and `"00000"` returns
`"χιλιάδες"`. -/
theorem c4_eval :
    convert_numbers "0000" = .ok "μηδέν χιλιάδες" ∧
    convert_numbers "00000" = .ok "χιλιάδες" ∧
    convert_numbers "00" = .ok "" ∧
    convert_numbers "000" = .ok "" ∧
    convert_numbers "000000" = .ok "" := by
  refine ⟨by decide, by decide, by decide, by decide, by decide⟩

/-- Claim C5, counterexample.  The deduplication invariant fails: for the
word `"αα"` the final phoneme sequence is `["a0", "a0"]` — two adjacent
identical tokens — because the collapse only fires when a whole token equals
the first character of the next one, and `"a0" ≠ "a"`. -/
theorem c5_counterexample :
    convert_word "αα" = .ok ("αα", ["a0", "a0"]) ∧
      has_adjacent_duplicate ["a0", "a0"] = true := by
  constructor
  · decide
  · decide

/-- Claim C5, amended.  The collapse removes an adjacent pair only when the
former token equals the one-character string made of the first character of
the latter: doubled single-letter consonants collapse (the `n n` of `"αννα"`
becomes one `n`), but two adjacent identical vowel tokens such as the
`a0 a0` of `"αα"` survive in the final sequence, so the universal
no-adjacent-duplicates invariant does not hold. -/
theorem c5_amended :
    convert_word "αννα" = .ok ("αννα", ["a0", "n", "a0"]) ∧
    convert_word "αα" = .ok ("αα", ["a0", "a0"]) := by
  constructor
  · decide
  · decide

/-- Claim C6, counterexample.  For the word `"αννα"` the raw scan emits
`a0 n n a0` — two vowel phonemes — yet the post-processed sequence is
`a0 n a0`, not the emitted one: the consonant-doubling collapse still changes
sequences with two or more vowels, so "the phonemes are left exactly as
emitted" fails. -/
theorem c6_counterexample :
    check_till_dipthongs "αννα" = .ok ("αννα", ["a0", "n", "n", "a0"]) ∧
    vowel_count (flatten_phonemes ["a0", "n", "n", "a0"]) = 2 ∧
    sanity_check (flatten_phonemes ["a0", "n", "n", "a0"]) = .ok ["a0", "n", "a0"] ∧
    flatten_phonemes ["a0", "n", "n", "a0"] ≠ (["a0", "n", "a0"] : List String) := by
  refine ⟨by decide, by decide, by decide, by decide⟩

/-- Claim C6, amended.  For every word whose characters are covered by the
rule table: when the raw scan yields exactly one vowel phoneme,
post-processing succeeds and every vowel of the final sequence is a stressed
code (ends in `"1"`), and the sequence does contain a vowel; when the scan
yields zero or two-or-more vowels, the intonation pass leaves the phonemes
exactly as emitted (the subsequent consonant-doubling collapse may still drop
doubled consonants, which is what the original claim overlooked). -/
theorem c6_amended (w : List Char)
    (hr : ∀ c ∈ w, (List.lookup c character_rules).isSome = true) :
    ∃ raw final,
      check_till_dipthongs (String.mk w) = .ok (String.mk w, raw) ∧
      sanity_check (flatten_phonemes raw) = .ok final ∧
      (vowel_count (flatten_phonemes raw) = 1 →
        (∀ t ∈ final, t ∈ vowel_phonemes → t ∈ stressed_vowel_phonemes) ∧
        ∃ t ∈ final, t ∈ vowel_phonemes) ∧
      (vowel_count (flatten_phonemes raw) ≠ 1 →
        intonation_pass (flatten_phonemes raw) = flatten_phonemes raw) := by
  obtain ⟨hcf, hcne⟩ := get_word_couples_facts w
  obtain ⟨raw, hraw, hrmem, hrne⟩ :=
    diphthong_scan_ok (get_word_couples w).length (get_word_couples w) [] le_rfl
      (fun g hg => Or.inr (hcf g (List.take_subset _ _ hg)).1)
      (fun g hg => (hcf g (List.drop_subset _ _ hg)).1)
      (fun g hg c hc => hr c ((hcf g hg).2 c hc))
      (by simp)
  have hscan : check_till_dipthongs (String.mk w) = .ok (String.mk w, raw) := by
    simp only [check_till_dipthongs, hraw, except_bind_ok]
  cases raw with
  | nil =>
    refine ⟨[], [""], hscan, by decide, fun h1 => absurd h1 (by decide),
      fun h1 => by rw [intonation_pass, if_neg h1]⟩
  | cons v rest =>
    have hrawne : (v :: rest : List String) ≠ [] := by simp
    have hflat := flatten_eq_flatMap hrawne
    have hfmem : ∀ t ∈ flatten_phonemes (v :: rest), t ∈ phoneme_parts := by
      rw [hflat]
      intro t ht
      obtain ⟨vt, hvt, htv⟩ := List.mem_flatMap.mp ht
      exact (rule_values_split_parts vt (hrmem vt hvt)).2 t htv
    have himem : ∀ t ∈ intonation_pass (flatten_phonemes (v :: rest)),
        t ∈ phoneme_parts := by
      rw [intonation_pass]
      by_cases hv1 : vowel_count (flatten_phonemes (v :: rest)) = 1
      · simp only [hv1, if_true]
        intro t ht
        obtain ⟨s, hs, rfl⟩ := List.mem_map.mp ht
        exact stress_mark_mem_parts s (hfmem s hs)
      · simp only [hv1, if_false]
        exact hfmem
    obtain ⟨final, hfin, hfsub, _⟩ :=
      dedup_pass_ok (intonation_pass (flatten_phonemes (v :: rest))).length
        (intonation_pass (flatten_phonemes (v :: rest))) le_rfl
        (fun t ht => phoneme_parts_ne_empty t (himem t ht))
    refine ⟨v :: rest, final, hscan, hfin, ?_, fun h1 => by rw [intonation_pass, if_neg h1]⟩
    intro h1
    have hmap : intonation_pass (flatten_phonemes (v :: rest)) =
        (flatten_phonemes (v :: rest)).map stress_mark := by
      rw [intonation_pass, if_pos h1]
    constructor
    · intro t ht htv
      have htmem := hfsub t ht
      rw [hmap] at htmem
      obtain ⟨s, hs, rfl⟩ := List.mem_map.mp htmem
      by_cases hsv : s ∈ vowel_phonemes
      · exact stress_mark_vowel s (hfmem s hs) hsv
      · rw [stress_mark_not_vowel hsv] at htv
        exact absurd htv hsv
    · have h1' := h1
      simp only [vowel_count] at h1'
      obtain ⟨v0, hv0⟩ := List.length_eq_one.mp h1'
      have hv0f : v0 ∈ (flatten_phonemes (v :: rest)).filter
          (fun ph => decide (ph ∈ vowel_phonemes)) := by rw [hv0]; simp
      have hv0mem : v0 ∈ flatten_phonemes (v :: rest) :=
        List.mem_of_mem_filter hv0f
      have hv0v : v0 ∈ vowel_phonemes := by
        have := List.of_mem_filter hv0f
        simpa using this
      have hcand : stress_mark v0 ∈ intonation_pass (flatten_phonemes (v :: rest)) := by
        rw [hmap]
        exact List.mem_map_of_mem _ hv0mem
      have hcandstr : stress_mark v0 ∈ stressed_vowel_phonemes :=
        stress_mark_vowel v0 (hfmem v0 hv0mem) hv0v
      have hcandv : stress_mark v0 ∈ vowel_phonemes :=
        stressed_sub_vowel _ hcandstr
      have hadj : ∀ a b, (a, b) ∈ (intonation_pass (flatten_phonemes (v :: rest))).zip
          (intonation_pass (flatten_phonemes (v :: rest))).tail →
          b ∈ vowel_phonemes → ∀ b0 bs, b.data = b0 :: bs →
          a ≠ String.mk [b0] := by
        intro a b hab hbv b0 bs hbd heqa
        obtain ⟨hamem, hbtail⟩ := List.of_mem_zip hab
        have hbmem := List.mem_of_mem_tail hbtail
        rw [hmap] at hamem hbmem
        obtain ⟨sa, hsa, rfl⟩ := List.mem_map.mp hamem
        obtain ⟨sb, hsb, rfl⟩ := List.mem_map.mp hbmem
        have hb0hd : b0 ∈ (stress_mark sb).data.take 1 := by
          rw [hbd]; simp
        have haeiou : ∀ x ∈ vowel_phonemes, ∀ c ∈ x.data.take 1,
            String.mk [c] ∈ (["a", "e", "i", "o", "u"] : List String) := by decide
        have hsaP : stress_mark sa ∈ phoneme_parts :=
          stress_mark_mem_parts sa (hfmem sa hsa)
        have hai : stress_mark sa = "i" :=
          parts_single_letter_vowel _ hsaP
            (by rw [heqa]; exact haeiou _ hbv b0 hb0hd)
        have hsai : sa = "i" := stress_mark_eq_i sa (hfmem sa hsa) hai
        have hb_i : ∀ x ∈ vowel_phonemes, ∀ c ∈ x.data.take 1,
            String.mk [c] = "i" → x ∈ (["i0", "i1"] : List String) := by decide
        have hbi : stress_mark sb ∈ (["i0", "i1"] : List String) :=
          hb_i _ hbv b0 hb0hd (by rw [← heqa, hai])
        have hsbi : sb ∈ (["i0", "i1"] : List String) :=
          stress_mark_i_vowel sb (hfmem sb hsb) hbi
        have hsbv : sb ∈ vowel_phonemes := by
          have hlift : ∀ x ∈ (["i0", "i1"] : List String), x ∈ vowel_phonemes := by
            decide
          exact hlift sb hsbi
        have hiflat : ("i" : String) ∈ flatten_phonemes (v :: rest) := by
          rw [← hsai]; exact hsa
        rw [hflat] at hiflat
        obtain ⟨vtok, hvtok, hisplit⟩ := List.mem_flatMap.mp hiflat
        have hsbf : sb ∈ (flatten_phonemes (v :: rest)).filter
            (fun ph => decide (ph ∈ vowel_phonemes)) :=
          List.mem_filter.mpr ⟨hsb, decide_eq_true hsbv⟩
        rcases rule_values_i_imp_o vtok (hrmem vtok hvtok) hisplit with ho | ho
        · have hoflat : ("o0" : String) ∈ flatten_phonemes (v :: rest) := by
            rw [hflat]
            exact List.mem_flatMap.mpr ⟨vtok, hvtok, ho⟩
          have hof : ("o0" : String) ∈ (flatten_phonemes (v :: rest)).filter
              (fun ph => decide (ph ∈ vowel_phonemes)) :=
            List.mem_filter.mpr ⟨hoflat, by decide⟩
          have honesb : ("o0" : String) ≠ sb := by
            have hlift : ∀ x ∈ (["i0", "i1"] : List String), ("o0" : String) ≠ x := by
              decide
            exact hlift sb hsbi
          have h2f := two_mem_length hof hsbf honesb
          omega
        · have hoflat : ("o1" : String) ∈ flatten_phonemes (v :: rest) := by
            rw [hflat]
            exact List.mem_flatMap.mpr ⟨vtok, hvtok, ho⟩
          have hof : ("o1" : String) ∈ (flatten_phonemes (v :: rest)).filter
              (fun ph => decide (ph ∈ vowel_phonemes)) :=
            List.mem_filter.mpr ⟨hoflat, by decide⟩
          have honesb : ("o1" : String) ≠ sb := by
            have hlift : ∀ x ∈ (["i0", "i1"] : List String), ("o1" : String) ≠ x := by
              decide
            exact hlift sb hsbi
          have h2f := two_mem_length hof hsbf honesb
          omega
      have hsurv := dedup_pass_keeps (fun t => t ∈ vowel_phonemes)
        (intonation_pass (flatten_phonemes (v :: rest))).length
        (intonation_pass (flatten_phonemes (v :: rest))) final le_rfl hfin hadj
        (stress_mark v0) hcand hcandv
      exact ⟨stress_mark v0, hsurv, hcandv⟩

/-- Witness for the amended C6 at the concrete word `"τους"`, whose raw scan
`t u0 s` has exactly one vowel. -/
theorem c6_witness :
    ∃ raw final,
      check_till_dipthongs (String.mk "τους".data) =
        .ok (String.mk "τους".data, raw) ∧
      sanity_check (flatten_phonemes raw) = .ok final ∧
      (vowel_count (flatten_phonemes raw) = 1 →
        (∀ t ∈ final, t ∈ vowel_phonemes → t ∈ stressed_vowel_phonemes) ∧
        ∃ t ∈ final, t ∈ vowel_phonemes) ∧
      (vowel_count (flatten_phonemes raw) ≠ 1 →
        intonation_pass (flatten_phonemes raw) = flatten_phonemes raw) :=
  c6_amended "τους".data (by decide)

/-- Claim C7 (code bug), evaluation at a failing input.  `convert_sentence`
passes the keyword argument `remove_unknown_chars` to
`g2p_greek.utils.process_word`, whose parameters are
`(word, keep_only_chars_and_digits, to_lower)`; the call raises `TypeError`
for every input, so `normalizeAndExpand` never returns normally, let alone
idempotently. -/
theorem c7_eval :
    convert_sentence "γεια σου" =
      .error (.typeError
        "process_word() got an unexpected keyword argument remove_unknown_chars") := by
  decide

/-- Claim C8, counterexample.  A single-character alphabetic word has no
character couples, so the scan emits nothing and
`" ".join([]).split(" ")` turns the empty list into `[""]`:
`convert_word("α")` returns the sequence `[""]`, which contains no actual
phoneme token. -/
theorem c8_counterexample :
    convert_word "α" = .ok ("α", [""]) := by
  decide

/-- Claim C8, amended.  For every word of at least two characters, all of
them covered by the single-character rule table, `convert_word` succeeds and
returns the word unchanged together with a non-empty phoneme sequence none of
whose tokens is empty (single-character words are excluded: they produce the
one-element sequence `[""]`). -/
theorem c8_amended (w : List Char) (h2 : 2 ≤ w.length)
    (hr : ∀ c ∈ w, (List.lookup c character_rules).isSome = true) :
    ∃ phs, convert_word (String.mk w) = .ok (String.mk w, phs) ∧
      phs ≠ [] ∧ ∀ t ∈ phs, t ≠ "" := by
  obtain ⟨hcf, hcne⟩ := get_word_couples_facts w
  obtain ⟨raw, hraw, hrmem, hrne⟩ :=
    diphthong_scan_ok (get_word_couples w).length (get_word_couples w) [] le_rfl
      (fun g hg => Or.inr (hcf g (List.take_subset _ _ hg)).1)
      (fun g hg => (hcf g (List.drop_subset _ _ hg)).1)
      (fun g hg c hc => hr c ((hcf g hg).2 c hc))
      (by simp)
  have hrawne : raw ≠ [] := hrne (Or.inl (hcne h2))
  have hflat := flatten_eq_flatMap hrawne
  have hfmem : ∀ t ∈ flatten_phonemes raw, t ∈ phoneme_parts := by
    rw [hflat]
    intro t ht
    obtain ⟨v, hv, htv⟩ := List.mem_flatMap.mp ht
    exact (rule_values_split_parts v (hrmem v hv)).2 t htv
  have hfne : flatten_phonemes raw ≠ [] := by
    rw [hflat]
    cases raw with
    | nil => exact absurd rfl hrawne
    | cons v rest =>
      intro hc
      rw [List.flatMap_cons] at hc
      exact (rule_values_split_parts v (hrmem v (by simp))).1
        (List.append_eq_nil.mp hc).1
  have himem : ∀ t ∈ intonation_pass (flatten_phonemes raw), t ∈ phoneme_parts := by
    rw [intonation_pass]
    by_cases hv1 : vowel_count (flatten_phonemes raw) = 1
    · simp only [hv1, if_true]
      intro t ht
      obtain ⟨s, hs, rfl⟩ := List.mem_map.mp ht
      exact stress_mark_mem_parts s (hfmem s hs)
    · simp only [hv1, if_false]
      exact hfmem
  have hine : intonation_pass (flatten_phonemes raw) ≠ [] := by
    rw [intonation_pass]
    by_cases hv1 : vowel_count (flatten_phonemes raw) = 1
    · simp only [hv1, if_true]
      simpa [List.map_eq_nil_iff] using hfne
    · simp only [hv1, if_false]
      exact hfne
  obtain ⟨final, hfin, hfsub, hfne2⟩ :=
    dedup_pass_ok (intonation_pass (flatten_phonemes raw)).length
      (intonation_pass (flatten_phonemes raw)) le_rfl
      (fun t ht => phoneme_parts_ne_empty t (himem t ht))
  have hstrip : pyStrip (String.mk w) = String.mk w := ruled_strip_id hr
  have hdig : pyIsdigit (String.mk w) = false := ruled_not_digit hr
  refine ⟨final, ?_, hfne2 hine,
    fun t ht => phoneme_parts_ne_empty t (himem t (hfsub t ht))⟩
  show convert_word_fuel 1000 (String.mk w) = _
  rw [convert_word_fuel_not_digit 999 (String.mk w) (by rw [hstrip]; exact hdig),
    hstrip]
  simp only [convert_word_scan, check_till_dipthongs, hraw, except_bind_ok,
    sanity_check, hfin]

/-- Witness for the amended C8 at the concrete two-letter word `"τα"`. -/
theorem c8_witness :
    ∃ phs, convert_word (String.mk "τα".data) = .ok (String.mk "τα".data, phs) ∧
      phs ≠ [] ∧ ∀ t ∈ phs, t ≠ "" :=
  c8_amended "τα".data (by decide) (by decide)

/-- Claim C9, counterexample.  `lookup` can fail: a word of length at least
two that misses the lexicon falls back to `convert_word`, and a character
with no rule entry there raises `KeyError`, which propagates out of
`get_word_phonemes` — here the word `"ab"` against the empty lexicon. -/
theorem c9_counterexample :
    get_word_phonemes [] "ab" = .error (.keyError "a") := by
  decide

/-- Claim C9, amended.  `get_word_phonemes` never fails on a word that is a
single character after stripping: every letter-name table entry converts
cleanly and the final fallback returns the word with an empty phoneme list.
For any other word it is failure-free exactly when the `convert_word`
fallback is: a lexicon hit returns the stored phonemes, and on a miss an
error of `convert_word` — such as `KeyError` on an unruled character —
propagates out, so "never fails" does not hold in general. -/
theorem c9_amended (lexicon : Lexicon) (w : String) :
    ((pyStrip w).data.length = 1 → pyOk (get_word_phonemes lexicon w) = true) ∧
    ((pyStrip w).data.length ≠ 1 → pyOk (convert_word w) = true →
      pyOk (get_word_phonemes lexicon w) = true) := by
  constructor
  · intro h1
    simp only [get_word_phonemes]
    rw [if_pos h1]
    have hinner : ∀ fb : Except PyErr String,
        single_letter_branch english_mappings w w fb = fb := fun fb => rfl
    rw [hinner]
    cases hlk : List.lookup w single_letter_pronounciations with
    | none =>
      simp only [single_letter_branch, hlk]
      rfl
    | some name =>
      have hname : name ∈ single_letter_pronounciations.map Prod.snd :=
        lookup_some_val_mem hlk
      have htab : ∀ v ∈ single_letter_pronounciations.map Prod.snd,
          pyOk (convert_word v) = true := by decide
      obtain ⟨r, hr⟩ := pyOk_eq_true.mp (htab name hname)
      simp only [single_letter_branch, hlk, hr]
      rfl
  · intro h1 hcw
    obtain ⟨r, hr⟩ := pyOk_eq_true.mp hcw
    simp only [get_word_phonemes]
    rw [if_neg h1]
    cases hlk : List.lookup (String.mk (w.data.take 3)) lexicon with
    | none =>
      simp only [hlk]
      rw [hr, except_bind_ok]
      rfl
    | some bucket =>
      cases hbk : List.lookup w bucket with
      | none =>
        simp only [hlk, hbk]
        rw [hr, except_bind_ok]
        rfl
      | some stored =>
        simp only [hlk, hbk]
        rfl

/-- Witness for the amended C9: the single-letter word `"α"` and the lexicon
miss `"αα"` (whose `convert_word` succeeds) both yield a result with no
error against the empty lexicon. -/
theorem c9_witness :
    pyOk (get_word_phonemes [] "α") = true ∧
    pyOk (get_word_phonemes [] "αα") = true :=
  ⟨(c9_amended [] "α").1 (by decide),
   (c9_amended [] "αα").2 (by decide) (by decide)⟩

/-- Claim C10.  When the word normalised by `process_word` is not composed
entirely of digit characters, `convert_numbers` returns the original input
string verbatim and raises no error. -/
theorem c10_passthrough (w : String)
    (h : pyIsdigit (process_word w) = false) : convert_numbers w = .ok w :=
  convert_numbers_of_not_digit w h

/-- Witness for C10 at the concrete word `"αβγ"`. -/
theorem c10_witness :
    pyIsdigit (process_word "αβγ") = false ∧ convert_numbers "αβγ" = .ok "αβγ" :=
  ⟨by decide, c10_passthrough "αβγ" (by decide)⟩

end G2P
